import Mathlib

/-
Verification development for the batch-encoding layer of the document-qa
repository (src/encoder.py).  The Python code is shallowly embedded: numpy
arrays become lists, exceptions become an explicit `Except Err` result, the
external vocabulary lookup becomes an explicit record of functions with its
mutable placeholder counter threaded as a state value, and np.random.randint
becomes an explicit oracle function `rng` (the code draws `rng n % n`, which
ranges over exactly the values `0 ≤ v < n` that randint can return).

Python raises bare `ValueError` at every data/configuration failure; the
spec names these DataError (answer-encoder failures) and ConfigurationError
(batch-capacity and question-length checks).  The `Err` type below labels
each raise site accordingly; `attributeError`, `indexError`, `typeError` and
`reduceError` stand for the corresponding Python runtime errors
(`None.answer_spans`, out-of-range numpy writes, comparison with `None`,
`max` of an empty array).
-/

namespace DocQA

/-- Tokens are words of text (Python `str`). -/
abbrev Token := String

/-- Python `word.lower()`: character-wise lowercasing. -/
def lower (w : Token) : Token := ⟨w.data.map Char.toLower⟩

/-- Gold answer representations seen by the answer encoders:
`ParagraphSpans` carries a list of `(para_word_start, para_word_end)` pairs,
`TriviaQaAnswer` carries its `answer_spans` array (the spec's SpanSet). -/
inductive AnswerData where
  | paragraphSpans (spans : List (Nat × Nat))
  | triviaQa (spans : List (Nat × Nat))
deriving DecidableEq

/-- Property `answer_spans` of either answer object: the list of gold
`(start, end)` word spans. -/
def AnswerData.answer_spans : AnswerData → List (Nat × Nat)
  | .paragraphSpans l => l
  | .triviaQa l => l

/-- One `ParagraphAndQuestion` example: a tokenised question, a context
given as sentences of tokens, and an optional gold answer. -/
structure Doc where
  question : List Token
  context : List (List Token)
  answer : Option AnswerData
deriving DecidableEq

/-- Failure outcomes of an encode call.  `configError` and `dataError` are
the Python `ValueError`s the spec calls ConfigurationError and DataError;
the rest label other Python runtime errors (see file header). -/
inductive Err where
  | configError
  | dataError
  | notImplementedError
  | indexError
  | attributeError
  | typeError
  | reduceError
deriving DecidableEq

/-- Python `np.random.randint(0, n)` given the oracle `rng`: raises
`ValueError` when `n = 0`, otherwise yields a value in `[0, n)`. -/
def randint (rng : Nat → Nat) (n : Nat) : Except Err Nat :=
  if n = 0 then .error .dataError else .ok (rng n % n)

/-- Validation at the end of `SingleSpanAnswerEncoder.encode`'s loop body:
`word_start > word_end` or `word_end >= context_len[doc_ix]` raise
`ValueError` (spec: DataError). -/
def validateSpan (clen : Nat) (sp : Nat × Nat) : Except Err (Nat × Nat) :=
  if sp.2 < sp.1 then .error .dataError
  else if clen ≤ sp.2 then .error .dataError
  else .ok sp

/-- Span selection of `SingleSpanAnswerEncoder.encode` for one document:
`None` answers raise `ValueError`; a `ParagraphSpans` answer is sampled
uniformly; a `TriviaQaAnswer` is first filtered to candidates with
`end < context_len[doc_ix]`, raising `ValueError` when none survives. -/
def pickSpan (rng : Nat → Nat) (clen : Nat) (ans : Option AnswerData) : Except Err (Nat × Nat) :=
  match ans with
  | none => .error .dataError
  | some (.paragraphSpans spans) =>
      match randint rng spans.length with
      | .error e => .error e
      | .ok i => .ok (spans.getD i (0, 0))
  | some (.triviaQa spans) =>
      let candidates := spans.filter (fun p => p.2 < clen)
      if candidates.length = 0 then .error .dataError
      else
        match randint rng candidates.length with
        | .error e => .error e
        | .ok i => .ok (candidates.getD i (0, 0))

/-- Loop body of `SingleSpanAnswerEncoder.encode` for one document:
selection followed by validation. -/
def singleSpanOne (rng : Nat → Nat) (clen : Nat) (ans : Option AnswerData) : Except Err (Nat × Nat) :=
  match pickSpan rng clen ans with
  | .error e => .error e
  | .ok sp => validateSpan clen sp

/-- The document loop of `SingleSpanAnswerEncoder.encode`, carrying the
running document index (`rng i` is the randint oracle used at index `i`). -/
def singleSpanList (rng : Nat → Nat → Nat) (context_len : List Nat) : Nat → List Doc → Except Err (List (Nat × Nat))
  | _, [] => .ok []
  | i, d :: ds =>
      match singleSpanOne (rng i) (context_len.getD i 0) d.answer with
      | .error e => .error e
      | .ok sp =>
          match singleSpanList rng context_len (i + 1) ds with
          | .error e => .error e
          | .ok rest => .ok (sp :: rest)

/-- Embedding of `SingleSpanAnswerEncoder.encode`: the target buffer is
`np.zeros([batch_size, 2])`, so rows past the batch remain `(0, 0)`. -/
def singleSpanEncode (rng : Nat → Nat → Nat) (batch_size : Nat) (context_len : List Nat) (batch : List Doc) : Except Err (List (Nat × Nat)) :=
  match singleSpanList rng context_len 0 batch with
  | .error e => .error e
  | .ok l => .ok (l ++ List.replicate (batch_size - batch.length) (0, 0))

/-- Start-mask and end-mask row of `DenseMultiSpanAnswerEncoder.encode` for
one document's spans: spans with `end ≥ context_word_dim` are filtered out,
then the surviving starts and ends are set true. -/
def denseDocRows (dim : Nat) (spans : List (Nat × Nat)) : List Bool × List Bool :=
  let fs := spans.filter (fun p => p.2 < dim)
  ((List.range dim).map (fun i => fs.any (fun p => p.1 = i)),
   (List.range dim).map (fun i => fs.any (fun p => p.2 = i)))

/-- Error behaviour of the `DenseMultiSpanAnswerEncoder.encode` loop: a
document with an answer whose row index `doc_ix` is out of range for the
`batch_size`-row buffer, or whose filtered spans contain a start index
`≥ context_word_dim`, makes numpy raise `IndexError`; documents whose
answer is `None` are skipped before any write. -/
def denseCheck (batch_size dim : Nat) : Nat → List Doc → Except Err Unit
  | _, [] => .ok ()
  | i, d :: ds =>
      match d.answer with
      | none => denseCheck batch_size dim (i + 1) ds
      | some a =>
          if batch_size ≤ i then .error .indexError
          else if (a.answer_spans.filter (fun p => p.2 < dim)).any (fun p => dim ≤ p.1) then .error .indexError
          else denseCheck batch_size dim (i + 1) ds

/-- Row `i` of the dense masks: zero-initialised rows receive the writes of
document `i` when there is one with an answer, and stay all-false
otherwise. -/
def denseRow (dim : Nat) (start? : Bool) (od : Option Doc) : List Bool :=
  match od with
  | some d =>
      match d.answer with
      | none => List.replicate dim false
      | some a =>
          if start? then (denseDocRows dim a.answer_spans).1
          else (denseDocRows dim a.answer_spans).2
  | none => List.replicate dim false

/-- Embedding of `DenseMultiSpanAnswerEncoder.encode`: two
`[batch_size, context_word_dim]` boolean buffers. -/
def denseEncode (batch_size dim : Nat) (batch : List Doc) : Except Err (List (List Bool) × List (List Bool)) :=
  match denseCheck batch_size dim 0 batch with
  | .error e => .error e
  | .ok _ =>
      .ok ((List.range batch_size).map (fun i => denseRow dim true (batch.get? i)),
           (List.range batch_size).map (fun i => denseRow dim false (batch.get? i)))

/-- Modelled from the spec: `to_packed_coordinates_np` lives in
`nn/span_prediction.py`, which is not under `src/`.  Spec section 4.1 asks
for a bijection from bounded spans onto `[0, N)` such that the packed index
of the last possible span `(context_length - bound, context_length - 1)`
equals `N - 1`, which sizes the output space as `pack(...) + 1`.  The
length-major order realises this: spans are numbered by length
`e - s` first and start position second, so
`pack s e L = s + Σ k < e - s, (L - k)`.  `packLenOffset L len` is that
sum, the number of spans of length below `len` inside a context of `L`
words.  (The spec's `bound` argument is not needed by the forward map.) -/
def packLenOffset (L : Nat) : Nat → Nat
  | 0 => 0
  | n + 1 => packLenOffset L n + (L - n)

/-- Modelled from the spec: the Packed Span Index of span `(s, e)` in a
context of `L` words (see `packLenOffset`). -/
def pack (s e L : Nat) : Nat := s + packLenOffset L (e - s)

/-- Width of the packed target of `PackedMultiSpanAnswerEncoder.encode`:
the packed index of the last possible span plus one (source line 112). -/
def packedSize (bound dim : Nat) : Nat := pack (dim - bound) (dim - 1) dim + 1

/-- One row of the packed target: true exactly at the packed indices of a
document's gold spans. -/
def packedRow (sz dim : Nat) (spans : List (Nat × Nat)) : List Bool :=
  (List.range sz).map (fun i => spans.any (fun p => pack p.1 p.2 dim = i))

/-- Error behaviour of the `PackedMultiSpanAnswerEncoder.encode` loop: a
document whose answer is `None` raises `AttributeError` at
`doc.answer.answer_spans`, and a packed index at or beyond the buffer width
raises `IndexError`. -/
def packedCheck (sz dim : Nat) : List Doc → Except Err Unit
  | [] => .ok ()
  | d :: ds =>
      match d.answer with
      | none => .error .attributeError
      | some a =>
          if a.answer_spans.any (fun p => sz ≤ pack p.1 p.2 dim) then .error .indexError
          else packedCheck sz dim ds

/-- Embedding of `PackedMultiSpanAnswerEncoder.encode`: note the output
buffer is `np.zeros((len(batch), sz))`, with `len(batch)` rows rather than
the padded `batch_size`. -/
def packedEncode (bound dim : Nat) (batch : List Doc) : Except Err (List (List Bool)) :=
  match packedCheck (packedSize bound dim) dim batch with
  | .error e => .error e
  | .ok _ =>
      .ok (batch.map (fun d => packedRow (packedSize bound dim) dim ((d.answer.map AnswerData.answer_spans).getD [])))

/-! Embedding of `DocumentAndQuestionEncoder` (source lines 120-338).  The
`word_featurizer` is omitted: the spec treats its numeric logic as an
external capability and no claim involves the feature arrays. -/

/-- The external `WordEmbedder` collaborator: vocabulary resolution returns
a negative sentinel for unknown words, and `get_placeholder` issues fresh
placeholder ids while mutating external state of type `σ` (its internal
counter), which the embedding threads explicitly. -/
structure WordEmbedder (σ : Type) where
  question_word_to_ix : Token → Int
  context_word_to_ix : Token → Int
  get_placeholder : σ → Int → Bool → Int × σ

/-- The external `CharEmbedder` collaborator. -/
structure CharEmbedder where
  char_to_ix : Char → Int

/-- The configured answer encoder (`self.answer_encoder`); the single-span
variant carries its randint oracle, indexed by document position. -/
inductive AnsEncCfg where
  | single (rng : Nat → Nat → Nat)
  | dense
  | packed (bound : Nat)

/-- Configuration of a `DocumentAndQuestionEncoder` after `init`:
`batch_size` is the optional fixed batch capacity, `max_context_word_dim`
and `max_ques_word_dim` the optional fixed dimensions, `max_char_dim` the
character cap, `sent_size_th` the sentence-count threshold, and `len_opt`
the length-optimisation flag (used by `CheatingEncoder.encode` only). -/
structure EncCfg (σ : Type) where
  batch_size : Option Nat
  max_context_word_dim : Option Nat
  max_ques_word_dim : Option Nat
  max_char_dim : Nat
  sent_size_th : Option Nat
  len_opt : Bool
  word_emb : Option (WordEmbedder σ)
  char_emb : Option CharEmbedder
  ans : AnsEncCfg

/-- Target arrays produced by the configured answer encoder. -/
inductive AnswerFeed where
  | single (answer_spans : List (Nat × Nat))
  | dense (answer_starts answer_ends : List (List Bool))
  | packed (correct_spans : List (List Bool))
deriving DecidableEq

/-- The feed mapping returned by `encode`: each field is one named numpy
array of the Python feed dictionary (a `none` field is an array that is not
part of the mapping because its embedder is not configured). -/
structure Feed where
  context_len : List Nat
  question_len : List Nat
  context_words : Option (List (List Int))
  question_words : Option (List (List Int))
  context_chars : Option (List (List (List Int)))
  question_chars : Option (List (List (List Int)))
  answer : AnswerFeed
deriving DecidableEq

/-- Maximum of a list of naturals (the value of `np.ndarray.max` on a
nonempty array). -/
def natMax (l : List Nat) : Nat := l.foldl Nat.max 0

/-- Python `arr.max()`: `ValueError` on an empty array. -/
def npMax (l : List Nat) : Except Err Nat :=
  if l.isEmpty then .error .reduceError else .ok (natMax l)

/-- A zero-filled row of the given width. -/
def zeroRow (n : Nat) : List Int := List.replicate n (0 : Int)

/-- A partially written numpy row: the written prefix followed by the
zeros the buffer was initialised with. -/
def pad0 (n : Nat) (l : List Int) : List Int := l ++ List.replicate (n - l.length) (0 : Int)

/-- A partially written stack of rows padded with zero rows. -/
def padRows (n m : Nat) (rows : List (List Int)) : List (List Int) :=
  rows ++ List.replicate (n - rows.length) (zeroRow m)

/-- Character row of one word: `char_to_ix` of each character, stopping at
`max_char_dim` (the `break` at source line 291/316), zero-padded. -/
def charRow (ce : CharEmbedder) (maxc : Nat) (w : Token) : List Int :=
  pad0 maxc ((w.data.take maxc).map ce.char_to_ix)

/-- Take a prefix when a threshold is configured (`None` thresholds never
trigger the `break`). -/
def optTake {α : Type} : Option Nat → List α → List α
  | none, l => l
  | some n, l => l.take n

/-- Python `sum(len(s) for s in doc.context)`: the flattened context
length. -/
def flatLen (d : Doc) : Nat := (d.context.map List.length).sum

/-- The context tokens actually visited by the fill loop of source lines
295-319: sentences up to `sent_size_th`, flattened, capped at
`self.max_context_word_dim` words. -/
def effCtx (sentTh maxCtx : Option Nat) (d : Doc) : List Token :=
  optTake maxCtx (optTake sentTh d.context).flatten

/-- The OOV placeholder table of one example (Python dict from lowercased
token to placeholder id; keys are only ever added, never overwritten). -/
abbrev Table := List (Token × Int)

/-- Dictionary lookup. -/
def lookupTable : Table → Token → Option Int
  | [], _ => none
  | (k, v) :: t, k2 => if k2 = k then some v else lookupTable t k2

/-- Resolution of one word (source lines 278-287 and 302-311): a
non-negative vocabulary index is used directly; otherwise the placeholder
table entry for the lowercased word is reused when present, else a fresh
placeholder id is requested and recorded. -/
def resolveWord {σ : Type} (emb : WordEmbedder σ) (tr : Bool) (f : Token → Int) (w : Token)
    (s : σ) (tbl : Table) : Int × σ × Table :=
  let ix := f w
  if ix < 0 then
    match lookupTable tbl (lower w) with
    | some v => (v, s, tbl)
    | none =>
        let r := emb.get_placeholder s ix tr
        (r.1, r.2, (lower w, r.1) :: tbl)
  else (ix, s, tbl)

/-- Sequential resolution of a stream of (word, lookup function) pairs,
threading the external placeholder state and the per-example table. -/
def runResolve {σ : Type} (emb : WordEmbedder σ) (tr : Bool) (s : σ) (tbl : Table) :
    List (Token × (Token → Int)) → List Int × σ × Table
  | [] => ([], s, tbl)
  | (w, f) :: rest =>
      let r := resolveWord emb tr f w s tbl
      let rr := runResolve emb tr r.2.1 r.2.2 rest
      (r.1 :: rr.1, rr.2)

/-- The word stream of one example in processing order: question tokens
resolved with `question_word_to_ix`, then the visited context tokens
resolved with `context_word_to_ix` (both share the example's table). -/
def docStream {σ : Type} (cfg : EncCfg σ) (emb : WordEmbedder σ) (d : Doc) :
    List (Token × (Token → Int)) :=
  d.question.map (fun w => (w, emb.question_word_to_ix)) ++
    (effCtx cfg.sent_size_th cfg.max_context_word_dim d).map (fun w => (w, emb.context_word_to_ix))

/-- Word-id rows written for one example: the placeholder table starts
empty (source line 275), and the resolved stream splits into the question
row prefix and the context row suffix. -/
def fillDoc {σ : Type} (cfg : EncCfg σ) (emb : WordEmbedder σ) (tr : Bool) (s : σ) (d : Doc) :
    (List Int × List Int) × σ :=
  let r := runResolve emb tr s [] (docStream cfg emb d)
  ((r.1.take d.question.length, r.1.drop d.question.length), r.2.1)

/-- The per-example fill loop of source lines 274-319 (word ids only):
the placeholder state `σ` of the external embedder persists across
examples, the table does not. -/
def fillWordsBatch {σ : Type} (cfg : EncCfg σ) (emb : WordEmbedder σ) (tr : Bool) :
    σ → List Doc → List (List Int × List Int) × σ
  | s, [] => ([], s)
  | s, d :: ds =>
      let r := fillDoc cfg emb tr s d
      let rest := fillWordsBatch cfg emb tr r.2 ds
      (r.1 :: rest.1, rest.2)

/-- Dispatch of `self.answer_encoder.encode(batch_size, context_len,
context_word_dim, batch)` (source line 321). -/
def runAnsEnc : AnsEncCfg → Nat → List Nat → Nat → List Doc → Except Err AnswerFeed
  | .single rng, bs, clen, _, batch =>
      match singleSpanEncode rng bs clen batch with
      | .error e => .error e
      | .ok l => .ok (.single l)
  | .dense, bs, _, dim, batch =>
      match denseEncode bs dim batch with
      | .error e => .error e
      | .ok p => .ok (.dense p.1 p.2)
  | .packed b, _, _, dim, batch =>
      match packedEncode b dim batch with
      | .error e => .error e
      | .ok rows => .ok (.packed rows)

/-- The effective batch size: the fixed capacity when one is configured
(source line 230), otherwise the number of examples. -/
def paddedSize {σ : Type} (cfg : EncCfg σ) (batch : List Doc) : Nat :=
  match cfg.batch_size with
  | some c => c
  | none => batch.length

/-- The capacity check of source lines 226-228. -/
def capExceeded {σ : Type} (cfg : EncCfg σ) (batch : List Doc) : Bool :=
  match cfg.batch_size with
  | some c => decide (c < batch.length)
  | none => false

/-- Source lines 237-243: during training with a configured maximum the
per-example lengths are clipped to it and the context dimension is that
maximum; otherwise the lengths are the true flattened lengths and the
context dimension is their batch maximum (failing on an empty batch). -/
def ctxStep {σ : Type} (cfg : EncCfg σ) (batch : List Doc) (tr : Bool) :
    Except Err (List Nat × Nat) :=
  match tr, cfg.max_context_word_dim with
  | true, some M => .ok (batch.map (fun d => min (flatLen d) M), M)
  | _, _ =>
      match npMax (batch.map flatLen) with
      | .error e => .error e
      | .ok m => .ok (batch.map flatLen, m)

/-- Source lines 245-254: the question-length check against a configured
fixed question dimension (`ValueError`, spec ConfigurationError), and the
resolution of the effective question dimension. -/
def qStep {σ : Type} (cfg : EncCfg σ) (batch : List Doc) : Except Err Nat :=
  match cfg.max_ques_word_dim with
  | some qd =>
      match npMax (batch.map (fun d => d.question.length)) with
      | .error e => .error e
      | .ok m => if qd < m then .error .configError else .ok qd
  | none => npMax (batch.map (fun d => d.question.length))

/-- Assembly of the feed mapping: zero-initialised buffers of leading
dimension `paddedSize`, whose first `batch.length` rows carry the written
ids (word buffers only exist when a word embedder is configured, char
buffers only when a char embedder is). -/
def buildFeed {σ : Type} (cfg : EncCfg σ) (batch : List Doc) (tr : Bool) (s0 : σ)
    (context_len : List Nat) (cwd qd : Nat) (ansF : AnswerFeed) : Feed :=
  let bs := paddedSize cfg batch
  let wordRows : Option (List (List Int × List Int)) :=
    match cfg.word_emb with
    | some emb => some (fillWordsBatch cfg emb tr s0 batch).1
    | none => none
  { context_len := context_len
    question_len := batch.map (fun d => d.question.length)
    question_words := wordRows.map (fun rows =>
      (rows.map (fun r => pad0 qd r.1)) ++
        List.replicate (bs - batch.length) (zeroRow qd))
    context_words := wordRows.map (fun rows =>
      (rows.map (fun r => pad0 cwd r.2)) ++
        List.replicate (bs - batch.length) (zeroRow cwd))
    question_chars := cfg.char_emb.map (fun ce =>
      (batch.map (fun d => padRows qd cfg.max_char_dim
        (d.question.map (charRow ce cfg.max_char_dim)))) ++
        List.replicate (bs - batch.length) (List.replicate qd (zeroRow cfg.max_char_dim)))
    context_chars := cfg.char_emb.map (fun ce =>
      (batch.map (fun d => padRows cwd cfg.max_char_dim
        ((effCtx cfg.sent_size_th cfg.max_context_word_dim d).map (charRow ce cfg.max_char_dim)))) ++
        List.replicate (bs - batch.length) (List.replicate cwd (zeroRow cfg.max_char_dim)))
    answer := ansF }

/-- Embedding of `DocumentAndQuestionEncoder.encode` (source lines
224-338, without the optional word featurizer): capacity check, length
computations, buffer filling, then answer encoding; any raise aborts the
call with no feed returned. -/
def encode {σ : Type} (cfg : EncCfg σ) (batch : List Doc) (is_train : Bool) (s0 : σ) :
    Except Err Feed :=
  if capExceeded cfg batch then .error .configError
  else
    match ctxStep cfg batch is_train with
    | .error e => .error e
    | .ok cl =>
      match qStep cfg batch with
      | .error e => .error e
      | .ok qd =>
        match runAnsEnc cfg.ans (paddedSize cfg batch) cl.1 cl.2 batch with
        | .error e => .error e
        | .ok ansF => .ok (buildFeed cfg batch is_train s0 cl.1 cl.2 qd ansF)

/-! Embedding of `CheatingEncoder` (source lines 500-570). -/

/-- Sentinel word written at a gold span's start position. -/
def whatTok : Token := "what"

/-- Sentinel word written at a gold span's end position. -/
def theTok : Token := "the"

/-- Sentinel word written at a gold span's interior positions. -/
def aTok : Token := "a"

/-- One numpy element write `row[i] = v`: out-of-range indices raise
`IndexError`. -/
def setAt (l : List Int) (i : Nat) (v : Int) : Except Err (List Int) :=
  if i < l.length then .ok (l.set i v) else .error .indexError

/-- The interior writes `for i in range(s+1, e): row[i] = v`. -/
def writeInterior (v : Int) : List Int → List Nat → Except Err (List Int)
  | l, [] => .ok l
  | l, i :: is =>
      match setAt l i v with
      | .error e => .error e
      | .ok l2 => writeInterior v l2 is

/-- The writes for one gold span (source lines 562-566): sentinel ids at
the start, then the end, then every interior position. -/
def writeSpan {σ : Type} (emb : WordEmbedder σ) (l : List Int) (sp : Nat × Nat) :
    Except Err (List Int) :=
  match setAt l sp.1 (emb.question_word_to_ix whatTok) with
  | .error e => .error e
  | .ok l1 =>
      match setAt l1 sp.2 (emb.question_word_to_ix theTok) with
      | .error e => .error e
      | .ok l2 => writeInterior (emb.question_word_to_ix aTok) l2
          (List.range' (sp.1 + 1) (sp.2 - (sp.1 + 1)))

/-- Sequential span writes of one example. -/
def writeSpans {σ : Type} (emb : WordEmbedder σ) : List Int → List (Nat × Nat) → Except Err (List Int)
  | l, [] => .ok l
  | l, sp :: sps =>
      match writeSpan emb l sp with
      | .error e => .error e
      | .ok l2 => writeSpans emb l2 sps

/-- One example's context row in `CheatingEncoder.encode`: the row is
first zeroed (source line 558), examples without an answer are skipped,
and the gold spans are written with the sentinel ids. -/
def cheatRow {σ : Type} (emb : WordEmbedder σ) (cwd : Nat) (oa : Option AnswerData) :
    Except Err (List Int) :=
  match oa with
  | none => .ok (zeroRow cwd)
  | some a => writeSpans emb (zeroRow cwd) a.answer_spans

/-- The cheat loop over the batch (source lines 557-566). -/
def cheatRowsList {σ : Type} (emb : WordEmbedder σ) (cwd : Nat) :
    List Doc → Except Err (List (List Int))
  | [] => .ok []
  | d :: ds =>
      match cheatRow emb cwd d.answer with
      | .error e => .error e
      | .ok r =>
          match cheatRowsList emb cwd ds with
          | .error e => .error e
          | .ok rest => .ok (r :: rest)

/-- Question-length step of `CheatingEncoder.encode` (source lines
529-532): unlike the primary encoder it compares without a `None` guard,
so a missing fixed question dimension raises `TypeError` after the batch
maximum is taken. -/
def qStepCheat {σ : Type} (cfg : EncCfg σ) (batch : List Doc) : Except Err Nat :=
  match npMax (batch.map (fun d => d.question.length)) with
  | .error e => .error e
  | .ok m =>
      match cfg.max_ques_word_dim with
      | none => .error .typeError
      | some qd => if qd < m then .error .configError else .ok qd

/-- Embedding of `CheatingEncoder.encode` (source lines 505-570): the
batching and length logic of the primary encoder (with the `len_opt`
min-reduction of lines 536-538), zero buffers, the cheat loop instead of
any vocabulary-based filling, and the forced dense answer encoder.  When
no word embedder is configured the loop body `context_words[doc_ix] = 0`
subscripts `None` (`TypeError`; the batch is nonempty here since
`qStepCheat` fails on empty batches). -/
def cheatingEncode {σ : Type} (cfg : EncCfg σ) (batch : List Doc) (is_train : Bool) :
    Except Err Feed :=
  if capExceeded cfg batch then .error .configError
  else
    match ctxStep cfg batch is_train with
    | .error e => .error e
    | .ok cl =>
      match qStepCheat cfg batch with
      | .error e => .error e
      | .ok qd0 =>
        let qd := if cfg.len_opt
          then min qd0 (natMax (batch.map (fun d => d.question.length)))
          else qd0
        let cwd := if cfg.len_opt then min cl.2 (natMax cl.1) else cl.2
        match cfg.word_emb with
        | none => .error .typeError
        | some emb =>
          match cheatRowsList emb cwd batch with
          | .error e => .error e
          | .ok rows =>
            match denseEncode (paddedSize cfg batch) cwd batch with
            | .error e => .error e
            | .ok p =>
              .ok { context_len := cl.1
                    question_len := batch.map (fun d => d.question.length)
                    context_words := some (rows ++
                      List.replicate (paddedSize cfg batch - batch.length) (zeroRow cwd))
                    question_words := some (List.replicate (paddedSize cfg batch) (zeroRow qd))
                    context_chars := cfg.char_emb.map (fun _ =>
                      List.replicate (paddedSize cfg batch) (List.replicate cwd (zeroRow cfg.max_char_dim)))
                    question_chars := cfg.char_emb.map (fun _ =>
                      List.replicate (paddedSize cfg batch) (List.replicate qd (zeroRow cfg.max_char_dim)))
                    answer := .dense p.1 p.2 }

/-- Formalisation of claim C8's reading of the code (the spec's words):
after the normal document/question encoding, overwrite only the gold-span
positions of the produced context word rows, leaving every other position's
vocabulary-resolved id in place. -/
def overwriteSpansOnly {σ : Type} (emb : WordEmbedder σ) :
    List (List Int) → List Doc → Except Err (List (List Int))
  | rows, [] => .ok rows
  | [], _ :: _ => .error .indexError
  | r :: rs, d :: ds =>
      match d.answer with
      | none =>
          match overwriteSpansOnly emb rs ds with
          | .error e => .error e
          | .ok rest => .ok (r :: rest)
      | some a =>
          match writeSpans emb r a.answer_spans with
          | .error e => .error e
          | .ok r2 =>
              match overwriteSpansOnly emb rs ds with
              | .error e => .error e
              | .ok rest => .ok (r2 :: rest)

/-- Positionwise replay of one gold span's sentinel writes at position
`p`: interior positions receive the interior sentinel, then the end, then
the start (matching the write order start, end, interior of source lines
563-566). -/
def spanVal {σ : Type} (emb : WordEmbedder σ) (p : Nat) (v : Int) (sp : Nat × Nat) : Int :=
  if sp.1 < p ∧ p < sp.2 then emb.question_word_to_ix aTok
  else if p = sp.2 then emb.question_word_to_ix theTok
  else if p = sp.1 then emb.question_word_to_ix whatTok
  else v

/-- The value claim C8's amended characterisation predicts for a context
position `p` of an example with answer `oa`: the positionwise replay of
the sentinel writes over a zero base. -/
def cheatExpected {σ : Type} (emb : WordEmbedder σ) (p : Nat) (oa : Option AnswerData) : Int :=
  match oa with
  | none => 0
  | some a => a.answer_spans.foldl (spanVal emb p) 0

/-! Concrete example inputs used by counterexamples and witnesses. -/

/-- Example token. -/
def qTok : Token := "q"

/-- Example token. -/
def tTok : Token := "t"

/-- Example token (unknown to the example embedder below). -/
def xxTok : Token := "xx"

/-- Example configuration with a fixed batch capacity of 2 and no
embedders, used for claim C1. -/
def exCfg1 : EncCfg Nat :=
  ⟨some 2, none, some 1, 1, none, false, none, none, .dense⟩

/-- Example document: a one-word question, a one-word context, no
answer. -/
def exDoc1 : Doc := ⟨[qTok], [[tTok]], none⟩

/-- Example embedder for claim C2: `xxTok` is unknown everywhere, every
other token resolves to 5, and the placeholder counter state hands out
ids 100, 101, ... -/
def exEmb2 : WordEmbedder Nat :=
  ⟨fun w => if w = xxTok then -1 else 5,
   fun w => if w = xxTok then -1 else 5,
   fun n _ _ => (100 + n, n + 1)⟩

/-- Example configuration for claim C2. -/
def exCfg2 : EncCfg Nat :=
  ⟨none, none, some 2, 1, none, false, some exEmb2, none, .dense⟩

/-- Example document for claim C2: the unknown token appears in both the
question and the context. -/
def exDoc2 : Doc := ⟨[xxTok, qTok], [[xxTok]], none⟩

/-- Word id written at position `k` of example `dix`'s resolution stream:
for `k` below the question length this is the question-words entry, and
beyond it the context-words entry at `k - question length` (the stream of
`docStream` lists the question tokens first). -/
def feedWordEntry (f : Feed) (d : Doc) (dix k : Nat) : Int :=
  if k < d.question.length then ((f.question_words.getD []).getD dix []).getD k 0
  else ((f.context_words.getD []).getD dix []).getD (k - d.question.length) 0

/-- Example configuration for claim C9: maximum context dimension 1. -/
def exCfg9 : EncCfg Nat :=
  ⟨none, some 1, some 1, 1, none, false, some exEmb2, none, .dense⟩

/-- Example document for claim C9: flattened context length 2 exceeds the
configured maximum 1. -/
def exDoc9 : Doc := ⟨[qTok], [[tTok, tTok]], none⟩

/-- Example embedder for claim C8: the three sentinel words resolve to 10,
11, 12 and every context word to 5 (nothing is unknown). -/
def exEmb8 : WordEmbedder Nat :=
  ⟨fun w => if w = whatTok then 10 else if w = theTok then 11 else if w = aTok then 12 else 5,
   fun _ => 5,
   fun n _ _ => (99, n)⟩

/-- Example configuration for claim C8. -/
def exCfg8 : EncCfg Nat :=
  ⟨none, none, some 4, 1, none, false, some exEmb8, none, .dense⟩

/-- Example document for claim C8: a four-word context with one gold span
`(0, 1)`, so position 2 lies outside every gold span. -/
def exDoc8 : Doc := ⟨[qTok], [[tTok, tTok, tTok, tTok]], some (.paragraphSpans [(0, 1)])⟩

/-! Helper lemmas about list access. -/

theorem getD_append_left {α : Type} (a b : List α) (i : Nat) (d : α) (h : i < a.length) :
    (a ++ b).getD i d = a.getD i d := by
  induction a generalizing i with
  | nil => simp at h
  | cons x xs ih =>
    cases i with
    | zero => rfl
    | succ j => simpa using ih j (by simpa using h)

theorem getD_range_map {α : Type} (f : Nat → α) (n i : Nat) (d : α) (h : i < n) :
    ((List.range n).map f).getD i d = f i := by
  rw [List.getD_eq_getElem ((List.range n).map f) d (by simpa using h)]
  simp

theorem getD_map_of_get? {α β : Type} (f : α → β) (l : List α) (i : Nat) (x : α) (d : β)
    (h : l.get? i = some x) : (l.map f).getD i d = f x := by
  have hi : i < l.length := List.get?_eq_some.mp h |>.1
  rw [List.getD_eq_getElem (l.map f) d (by simpa using hi)]
  have : l[i] = x := by
    have := List.get?_eq_some.mp h
    rcases this with ⟨hlt, hv⟩
    simpa [List.get?_eq_getElem?, List.getElem?_eq_getElem hlt] using h
  simp [this]

/-! Facts about `SingleSpanAnswerEncoder` (claims C3 and C4). -/

theorem pickSpan_error_eq {rng : Nat → Nat} {clen : Nat} {ans : Option AnswerData} {e : Err}
    (h : pickSpan rng clen ans = .error e) : e = .dataError := by
  cases ans with
  | none => simpa [pickSpan] using h.symm
  | some a =>
    cases a with
    | paragraphSpans spans =>
      by_cases hn : spans.length = 0
      · simpa [pickSpan, randint, hn] using h.symm
      · simp [pickSpan, randint, hn] at h
    | triviaQa spans =>
      by_cases hc : (spans.filter (fun p => p.2 < clen)).length = 0
      · simpa [pickSpan, randint, hc] using h.symm
      · simp [pickSpan, randint, hc] at h

theorem singleSpanOne_error_eq {rng : Nat → Nat} {clen : Nat} {ans : Option AnswerData} {e : Err}
    (h : singleSpanOne rng clen ans = .error e) : e = .dataError := by
  unfold singleSpanOne at h
  cases hp : pickSpan rng clen ans with
  | error e2 =>
    rw [hp] at h
    cases h
    exact pickSpan_error_eq hp
  | ok sp =>
    rw [hp] at h
    unfold validateSpan at h
    by_cases h1 : sp.2 < sp.1
    · simpa [h1] using h.symm
    · by_cases h2 : clen ≤ sp.2
      · simpa [h1, h2] using h.symm
      · simp [h1, h2] at h

theorem singleSpanOne_none {rng : Nat → Nat} {clen : Nat} :
    singleSpanOne rng clen none = .error .dataError := rfl

theorem singleSpanList_none {rng : Nat → Nat → Nat} {context_len : List Nat} :
    ∀ (i : Nat) (ds : List Doc), (∃ d ∈ ds, d.answer = none) →
      singleSpanList rng context_len i ds = .error .dataError := by
  intro i ds
  induction ds generalizing i with
  | nil => rintro ⟨d, hd, _⟩; cases hd
  | cons d ds ih =>
    rintro ⟨d0, hd0, hnone⟩
    cases hs : singleSpanOne (rng i) (context_len.getD i 0) d.answer with
    | error e =>
      have he := singleSpanOne_error_eq hs
      subst he
      simp only [singleSpanList]
      rw [hs]
    | ok sp =>
      rcases List.mem_cons.mp hd0 with rfl | hmem
      · rw [hnone] at hs; cases hs
      · simp only [singleSpanList]
        rw [hs, ih (i + 1) ⟨d0, hmem, hnone⟩]

theorem singleSpanOne_ok_bounds {rng : Nat → Nat} {clen : Nat} {ans : Option AnswerData}
    {sp : Nat × Nat} (h : singleSpanOne rng clen ans = .ok sp) :
    sp.1 ≤ sp.2 ∧ sp.2 < clen := by
  unfold singleSpanOne at h
  cases hp : pickSpan rng clen ans with
  | error e => rw [hp] at h; cases h
  | ok sp2 =>
    rw [hp] at h
    unfold validateSpan at h
    by_cases h1 : sp2.2 < sp2.1
    · simp [h1] at h
    · by_cases h2 : clen ≤ sp2.2
      · simp [h1, h2] at h
      · simp [h1, h2] at h
        subst h
        omega

theorem singleSpanList_ok_spec {rng : Nat → Nat → Nat} {context_len : List Nat} :
    ∀ (i : Nat) (ds : List Doc) (l : List (Nat × Nat)),
      singleSpanList rng context_len i ds = .ok l →
      l.length = ds.length ∧
      ∀ j, j < ds.length →
        (l.getD j (0, 0)).1 ≤ (l.getD j (0, 0)).2 ∧
        (l.getD j (0, 0)).2 < context_len.getD (i + j) 0 := by
  intro i ds
  induction ds generalizing i with
  | nil =>
    intro l h
    cases h
    exact ⟨rfl, fun j hj => absurd hj (by simp)⟩
  | cons d ds ih =>
    intro l h
    unfold singleSpanList at h
    cases hs : singleSpanOne (rng i) (context_len.getD i 0) d.answer with
    | error e => rw [hs] at h; cases h
    | ok sp =>
      rw [hs] at h
      cases ht : singleSpanList rng context_len (i + 1) ds with
      | error e => rw [ht] at h; cases h
      | ok rest =>
        rw [ht] at h
        cases h
        obtain ⟨hlen, hall⟩ := ih (i + 1) rest ht
        refine ⟨by simp [hlen], fun j hj => ?_⟩
        cases j with
        | zero =>
          simpa using singleSpanOne_ok_bounds hs
        | succ k =>
          have h2 := hall k (by simpa using hj)
          have hidx : i + 1 + k = i + (k + 1) := by omega
          rw [hidx] at h2
          simpa [List.getD_cons_succ] using h2

/-- Claim C3.  `SingleSpanAnswerEncoder.encode` fails with DataError
whenever some example's answer is `None` (part 1); for a multi-candidate
`TriviaQaAnswer` (the spec's SpanSet), the candidates are filtered to those
with `end < context_length[example]`: the call fails with DataError when no
candidate survives (part 2); otherwise, whatever value randint draws, the
selected span is one of the survivors (part 3); and every survivor is
selected for some draw, so the choice ranges over the survivors only
(part 4). -/
theorem claim3_single_span_error_policy :
    (∀ (rng : Nat → Nat → Nat) (bs : Nat) (context_len : List Nat) (batch : List Doc),
      (∃ d ∈ batch, d.answer = none) →
      singleSpanEncode rng bs context_len batch = .error .dataError) ∧
    (∀ (rng : Nat → Nat) (clen : Nat) (spans : List (Nat × Nat)),
      (spans.filter (fun p => p.2 < clen)).length = 0 →
      pickSpan rng clen (some (.triviaQa spans)) = .error .dataError) ∧
    (∀ (rng : Nat → Nat) (clen : Nat) (spans : List (Nat × Nat)),
      (spans.filter (fun p => p.2 < clen)).length ≠ 0 →
      ∃ sp, pickSpan rng clen (some (.triviaQa spans)) = .ok sp ∧
        sp ∈ spans.filter (fun p => p.2 < clen)) ∧
    (∀ (clen : Nat) (spans : List (Nat × Nat)) (sp : Nat × Nat),
      sp ∈ spans.filter (fun p => p.2 < clen) →
      ∃ rng : Nat → Nat, pickSpan rng clen (some (.triviaQa spans)) = .ok sp) := by
  refine ⟨?_, ?_, ?_, ?_⟩
  · intro rng bs context_len batch hnone
    have h0 := @singleSpanList_none rng context_len 0 batch hnone
    simp [singleSpanEncode, h0]
  · intro rng clen spans hempty
    simp [pickSpan, hempty]
  · intro rng clen spans hne
    have hlt : rng (spans.filter (fun p => p.2 < clen)).length %
        (spans.filter (fun p => p.2 < clen)).length <
        (spans.filter (fun p => p.2 < clen)).length :=
      Nat.mod_lt _ (Nat.pos_of_ne_zero hne)
    refine ⟨(spans.filter (fun p => p.2 < clen)).getD
      (rng (spans.filter (fun p => p.2 < clen)).length %
        (spans.filter (fun p => p.2 < clen)).length) (0, 0), ?_, ?_⟩
    · simp [pickSpan, randint, hne]
    · rw [List.getD_eq_getElem _ _ hlt]
      exact List.getElem_mem _
  · intro clen spans sp hmem
    obtain ⟨i, hi, hget⟩ := List.mem_iff_getElem.mp hmem
    refine ⟨fun _ => i, ?_⟩
    have hne : (spans.filter (fun p => p.2 < clen)).length ≠ 0 := by
      intro h0
      rw [h0] at hi
      omega
    have hmod : i % (spans.filter (fun p => p.2 < clen)).length = i := Nat.mod_eq_of_lt hi
    simp only [pickSpan, randint, hne, if_false, hmod]
    rw [List.getD_eq_getElem _ _ (by omega : i < (spans.filter (fun p => p.2 < clen)).length)]
    simp [hget]

/-- Witness for claim C3 at concrete inputs. -/
theorem claim3_witness :
    ((⟨[], [], none⟩ : Doc) ∈ [(⟨[], [], none⟩ : Doc)] ∧ (⟨[], [], none⟩ : Doc).answer = none) ∧
    singleSpanEncode (fun _ _ => 0) 1 [3] [⟨[], [], none⟩] = .error .dataError :=
  ⟨⟨by simp, rfl⟩,
   claim3_single_span_error_policy.1 (fun _ _ => 0) 1 [3] [⟨[], [], none⟩]
     ⟨⟨[], [], none⟩, by simp, rfl⟩⟩

/-- Claim C4.  Whenever `SingleSpanAnswerEncoder.encode` returns, the pair
written for every example `i` of the batch satisfies
`0 ≤ start ≤ end < context_len[i]` (starts are naturals, so `0 ≤ start`
holds by type); and the validation step turns any selected span with
`start > end` or `end ≥ context_len[i]` into a `ValueError` (DataError). -/
theorem claim4_single_span_bounds :
    (∀ (rng : Nat → Nat → Nat) (bs : Nat) (context_len : List Nat) (batch : List Doc)
      (res : List (Nat × Nat)),
      singleSpanEncode rng bs context_len batch = .ok res →
      ∀ i, i < batch.length →
        (res.getD i (0, 0)).1 ≤ (res.getD i (0, 0)).2 ∧
        (res.getD i (0, 0)).2 < context_len.getD i 0) ∧
    (∀ (clen : Nat) (sp : Nat × Nat),
      sp.2 < sp.1 ∨ clen ≤ sp.2 → validateSpan clen sp = .error .dataError) := by
  constructor
  · intro rng bs context_len batch res hok i hi
    unfold singleSpanEncode at hok
    cases hl : singleSpanList rng context_len 0 batch with
    | error e => rw [hl] at hok; cases hok
    | ok l =>
      rw [hl] at hok
      cases hok
      obtain ⟨hlen, hall⟩ := singleSpanList_ok_spec 0 batch l hl
      have := hall i hi
      rw [getD_append_left l _ i (0, 0) (by omega)]
      simpa using this
  · intro clen sp h
    unfold validateSpan
    by_cases h1 : sp.2 < sp.1
    · simp [h1]
    · have h2 : clen ≤ sp.2 := by omega
      simp [h1, h2]

/-- Witness for claim C4 at concrete inputs. -/
theorem claim4_witness :
    singleSpanEncode (fun _ _ => 0) 1 [3] [⟨[], [], some (.triviaQa [(1, 2)])⟩] = .ok [(1, 2)] ∧
    (([((1 : Nat), (2 : Nat))]).getD 0 (0, 0)).1 ≤ (([((1 : Nat), (2 : Nat))]).getD 0 (0, 0)).2 ∧
    (([((1 : Nat), (2 : Nat))]).getD 0 (0, 0)).2 < ([(3 : Nat)]).getD 0 0 :=
  ⟨rfl,
   claim4_single_span_bounds.1 (fun _ _ => 0) 1 [3] [⟨[], [], some (.triviaQa [(1, 2)])⟩]
     [(1, 2)] rfl 0 (by simp)⟩

/-! Facts about `DenseMultiSpanAnswerEncoder` (claims C5 and C10). -/

theorem denseCheck_cons (bs dim i : Nat) (d : Doc) (ds : List Doc) :
    denseCheck bs dim i (d :: ds) =
      match d.answer with
      | none => denseCheck bs dim (i + 1) ds
      | some a =>
          if bs ≤ i then .error .indexError
          else if ((a.answer_spans.filter (fun p => p.2 < dim)).any fun p => dim ≤ p.1)
            then .error .indexError
          else denseCheck bs dim (i + 1) ds := rfl

theorem denseCheck_cons_none (bs dim i : Nat) (d : Doc) (ds : List Doc) (h : d.answer = none) :
    denseCheck bs dim i (d :: ds) = denseCheck bs dim (i + 1) ds := by
  rw [denseCheck_cons, h]

theorem denseCheck_cons_some (bs dim i : Nat) (d : Doc) (ds : List Doc) (a : AnswerData)
    (h : d.answer = some a) :
    denseCheck bs dim i (d :: ds) =
      if bs ≤ i then .error .indexError
      else if ((a.answer_spans.filter (fun p => p.2 < dim)).any fun p => dim ≤ p.1)
        then .error .indexError
      else denseCheck bs dim (i + 1) ds := by
  rw [denseCheck_cons, h]

theorem denseCheck_ok (bs dim : Nat) :
    ∀ (i : Nat) (ds : List Doc),
      (∀ d ∈ ds, ∀ a, d.answer = some a → ∀ sp ∈ a.answer_spans, sp.1 ≤ sp.2) →
      i + ds.length ≤ bs →
      denseCheck bs dim i ds = .ok () := by
  intro i ds
  induction ds generalizing i with
  | nil => intro _ _; rfl
  | cons d ds ih =>
    intro hwf hlen
    have hlen2 : i + ds.length + 1 ≤ bs := by
      simp only [List.length_cons] at hlen
      omega
    cases hans : d.answer with
    | none =>
      rw [denseCheck_cons_none bs dim i d ds hans]
      exact ih (i + 1) (fun d2 hd2 => hwf d2 (List.mem_cons_of_mem _ hd2)) (by omega)
    | some a =>
      have hi : ¬ bs ≤ i := by omega
      have hfilter : ((a.answer_spans.filter (fun p => p.2 < dim)).any (fun p => dim ≤ p.1)) = false := by
        simp only [List.any_eq_false, decide_eq_true_eq]
        intro p hp
        have hp2 : p.2 < dim := by
          have := List.of_mem_filter hp
          simpa using this
        have hp1 : p ∈ a.answer_spans := List.mem_of_mem_filter hp
        have := hwf d (List.mem_cons_self d ds) a hans p hp1
        omega
      rw [denseCheck_cons_some bs dim i d ds a hans, if_neg hi, hfilter]
      simp only [Bool.false_eq_true, if_false]
      exact ih (i + 1) (fun d2 hd2 => hwf d2 (List.mem_cons_of_mem _ hd2)) (by omega)

theorem denseRow_none_doc (dim : Nat) (start? : Bool) :
    denseRow dim start? none = List.replicate dim false := rfl

theorem denseRow_eq (dim : Nat) (start? : Bool) (d : Doc) :
    denseRow dim start? (some d) =
      match d.answer with
      | none => List.replicate dim false
      | some a =>
          if start? then (denseDocRows dim a.answer_spans).1
          else (denseDocRows dim a.answer_spans).2 := rfl

theorem denseRow_none_ans (dim : Nat) (start? : Bool) (d : Doc) (h : d.answer = none) :
    denseRow dim start? (some d) = List.replicate dim false := by
  rw [denseRow_eq, h]

theorem denseRow_some (dim : Nat) (start? : Bool) (d : Doc) (a : AnswerData)
    (h : d.answer = some a) :
    denseRow dim start? (some d) =
      if start? then (denseDocRows dim a.answer_spans).1
      else (denseDocRows dim a.answer_spans).2 := by
  rw [denseRow_eq, h]

theorem denseRow_length (dim : Nat) (start? : Bool) (od : Option Doc) :
    (denseRow dim start? od).length = dim := by
  cases od with
  | none => simp [denseRow_none_doc]
  | some d =>
    cases hans : d.answer with
    | none => simp [denseRow_none_ans dim start? d hans]
    | some a =>
      rw [denseRow_some dim start? d a hans]
      cases start? <;> simp [denseDocRows]

/-- Claim C5.  For every example, `DenseMultiSpanAnswerEncoder.encode`
produces a start-mask and an end-mask of length `context_word_dim`; both
rows are all-false when the example's answer is `None`; otherwise position
`j` of the start-mask (resp. end-mask) is true exactly when some gold span
surviving the `end < context_word_dim` filter starts (resp. ends) at `j`,
so spans with `end ≥ context_word_dim` are dropped without any error.  The
hypothesis `start ≤ end` is the spec's span invariant (section 3). -/
theorem claim5_dense_masks (bs dim : Nat) (batch : List Doc)
    (hwf : ∀ d ∈ batch, ∀ a, d.answer = some a → ∀ sp ∈ a.answer_spans, sp.1 ≤ sp.2)
    (hbs : batch.length ≤ bs) :
    ∃ S E, denseEncode bs dim batch = .ok (S, E) ∧
      S.length = bs ∧ E.length = bs ∧
      (∀ r ∈ S, r.length = dim) ∧ (∀ r ∈ E, r.length = dim) ∧
      (∀ i d, batch.get? i = some d →
        (d.answer = none → S.getD i [] = List.replicate dim false ∧
                           E.getD i [] = List.replicate dim false) ∧
        (∀ a, d.answer = some a → ∀ j, j < dim →
          ((S.getD i []).getD j false =
            (a.answer_spans.filter (fun p => p.2 < dim)).any (fun p => p.1 = j)) ∧
          ((E.getD i []).getD j false =
            (a.answer_spans.filter (fun p => p.2 < dim)).any (fun p => p.2 = j)))) := by
  have hchk : denseCheck bs dim 0 batch = .ok () := denseCheck_ok bs dim 0 batch hwf (by omega)
  refine ⟨(List.range bs).map (fun i => denseRow dim true (batch.get? i)),
          (List.range bs).map (fun i => denseRow dim false (batch.get? i)),
          by simp [denseEncode, hchk], by simp, by simp, ?_, ?_, ?_⟩
  · intro r hr
    obtain ⟨j, _, rfl⟩ := List.mem_map.mp hr
    exact denseRow_length dim true _
  · intro r hr
    obtain ⟨j, _, rfl⟩ := List.mem_map.mp hr
    exact denseRow_length dim false _
  · intro i d hget
    have hi : i < batch.length := (List.get?_eq_some.mp hget).1
    have hibs : i < bs := by omega
    have hS : ((List.range bs).map (fun k => denseRow dim true (batch.get? k))).getD i []
        = denseRow dim true (batch.get? i) := getD_range_map _ bs i [] hibs
    have hE : ((List.range bs).map (fun k => denseRow dim false (batch.get? k))).getD i []
        = denseRow dim false (batch.get? i) := getD_range_map _ bs i [] hibs
    constructor
    · intro hnone
      rw [hS, hE, hget, denseRow_none_ans dim true d hnone, denseRow_none_ans dim false d hnone]
      exact ⟨rfl, rfl⟩
    · intro a ha j hj
      rw [hS, hE, hget, denseRow_some dim true d a ha, denseRow_some dim false d a ha]
      simp only [if_true, if_false, Bool.false_eq_true, reduceIte]
      constructor
      · exact getD_range_map _ dim j false hj
      · exact getD_range_map _ dim j false hj

/-- Witness for claim C5 at the spec's own example: gold spans
`{(2,5),(7,9)}` with `context_word_dim = 8`. -/
theorem claim5_witness :
    ((⟨[], [], some (.triviaQa [(2, 5), (7, 9)])⟩ : Doc) :: []).length ≤ 1 ∧
    (∃ S E, denseEncode 1 8 [⟨[], [], some (.triviaQa [(2, 5), (7, 9)])⟩] = .ok (S, E) ∧
      S.length = 1 ∧ E.length = 1 ∧
      (∀ r ∈ S, r.length = 8) ∧ (∀ r ∈ E, r.length = 8) ∧
      (∀ i d, ([(⟨[], [], some (.triviaQa [(2, 5), (7, 9)])⟩ : Doc)]).get? i = some d →
        (d.answer = none → S.getD i [] = List.replicate 8 false ∧
                           E.getD i [] = List.replicate 8 false) ∧
        (∀ a, d.answer = some a → ∀ j, j < 8 →
          ((S.getD i []).getD j false =
            (a.answer_spans.filter (fun p => p.2 < 8)).any (fun p => p.1 = j)) ∧
          ((E.getD i []).getD j false =
            (a.answer_spans.filter (fun p => p.2 < 8)).any (fun p => p.2 = j))))) :=
  ⟨by simp,
   claim5_dense_masks 1 8 [⟨[], [], some (.triviaQa [(2, 5), (7, 9)])⟩]
     (by
       intro d hd a ha sp hsp
       simp only [List.mem_singleton] at hd
       subst hd
       cases ha
       simp only [AnswerData.answer_spans, List.mem_cons, List.mem_singleton,
         List.not_mem_nil, or_false] at hsp
       rcases hsp with rfl | rfl
       · decide
       · decide)
     (by simp)⟩

/-! Facts about the Packed Span Index and `PackedMultiSpanAnswerEncoder`
(claims C6 and C10). -/

theorem packLenOffset_le (L : Nat) :
    ∀ (m k : Nat), k + m ≤ L → packLenOffset L k + m ≤ packLenOffset L (k + m) := by
  intro m
  induction m with
  | zero => intro k _; simp
  | succ n ih =>
    intro k h
    have h1 := ih k (by omega)
    have e1 : k + (n + 1) = (k + n) + 1 := by omega
    have e2 : packLenOffset L ((k + n) + 1) = packLenOffset L (k + n) + (L - (k + n)) := rfl
    rw [e1, e2]
    omega

theorem pack_le_last {s e L bound : Nat} (hse : s ≤ e) (heL : e < L)
    (hlen : e - s < bound) (hbL : bound ≤ L) :
    pack s e L ≤ pack (L - bound) (L - 1) L := by
  unfold pack
  have hes : (L - 1) - (L - bound) = bound - 1 := by omega
  rw [hes]
  have h2 := packLenOffset_le L ((bound - 1) - (e - s)) (e - s) (by omega)
  have e2 : (e - s) + ((bound - 1) - (e - s)) = bound - 1 := by omega
  rw [e2] at h2
  omega

theorem packedCheck_cons (sz dim : Nat) (d : Doc) (ds : List Doc) :
    packedCheck sz dim (d :: ds) =
      match d.answer with
      | none => .error .attributeError
      | some a =>
          if (a.answer_spans.any fun p => sz ≤ pack p.1 p.2 dim) then .error .indexError
          else packedCheck sz dim ds := rfl

theorem packedCheck_cons_none (sz dim : Nat) (d : Doc) (ds : List Doc) (h : d.answer = none) :
    packedCheck sz dim (d :: ds) = .error .attributeError := by
  rw [packedCheck_cons, h]

theorem packedCheck_cons_some (sz dim : Nat) (d : Doc) (ds : List Doc) (a : AnswerData)
    (h : d.answer = some a) :
    packedCheck sz dim (d :: ds) =
      if (a.answer_spans.any fun p => sz ≤ pack p.1 p.2 dim) then .error .indexError
      else packedCheck sz dim ds := by
  rw [packedCheck_cons, h]

theorem packedCheck_ok {dim bound : Nat} :
    ∀ (ds : List Doc),
      (∀ d ∈ ds, ∃ a, d.answer = some a ∧ ∀ sp ∈ a.answer_spans,
        sp.1 ≤ sp.2 ∧ sp.2 < dim ∧ sp.2 - sp.1 < bound) →
      bound ≤ dim →
      packedCheck (packedSize bound dim) dim ds = .ok () := by
  intro ds
  induction ds with
  | nil => intro _ _; rfl
  | cons d ds ih =>
    intro hans hbd
    obtain ⟨a, hsome, hsp⟩ := hans d (List.mem_cons_self d ds)
    have hany : (a.answer_spans.any (fun p => packedSize bound dim ≤ pack p.1 p.2 dim)) = false := by
      simp only [List.any_eq_false, decide_eq_true_eq]
      intro p hp
      obtain ⟨h1, h2, h3⟩ := hsp p hp
      have := pack_le_last h1 h2 h3 hbd
      simp only [packedSize]
      omega
    rw [packedCheck_cons_some _ dim d ds a hsome, hany]
    simp only [Bool.false_eq_true, if_false]
    exact ih (fun d2 hd2 => hans d2 (List.mem_cons_of_mem _ hd2)) hbd

theorem packedCheck_not_ok {sz dim : Nat} :
    ∀ (ds : List Doc), (∃ d ∈ ds, d.answer = none) →
      ∀ u, packedCheck sz dim ds ≠ .ok u := by
  intro ds
  induction ds with
  | nil => rintro ⟨d, hd, _⟩; cases hd
  | cons d ds ih =>
    rintro ⟨d0, hd0, hnone⟩ u h
    cases hans : d.answer with
    | none => rw [packedCheck_cons_none sz dim d ds hans] at h; cases h
    | some a =>
      rw [packedCheck_cons_some sz dim d ds a hans] at h
      rcases List.mem_cons.mp hd0 with rfl | hmem
      · rw [hnone] at hans; cases hans
      · by_cases hx : (a.answer_spans.any fun p => decide (sz ≤ pack p.1 p.2 dim)) = true
        · rw [if_pos hx] at h; cases h
        · rw [if_neg hx] at h
          exact ih ⟨d0, hmem, hnone⟩ u h

/-- Claim C6.  For every `PackedMultiSpanAnswerEncoder.encode` call with
context dimension `dim` and bound `bound`, every row of the returned
boolean target has width `pack (dim - bound) (dim - 1) dim + 1` (the
packed index of the last possible span plus one), and the entry at the
packed index of every gold span of every example is true.  The hypotheses
are the spec's preconditions for the packed index: spans are well-formed
(`start ≤ end`), inside the context, and of length below the bound (which
the code does not check, spec section 4.2). -/
theorem claim6_packed_width_and_marks (bound dim : Nat) (batch : List Doc)
    (hbd : bound ≤ dim)
    (hans : ∀ d ∈ batch, ∃ a, d.answer = some a ∧ ∀ sp ∈ a.answer_spans,
      sp.1 ≤ sp.2 ∧ sp.2 < dim ∧ sp.2 - sp.1 < bound) :
    ∃ rows, packedEncode bound dim batch = .ok rows ∧
      rows.length = batch.length ∧
      (∀ r ∈ rows, r.length = pack (dim - bound) (dim - 1) dim + 1) ∧
      (∀ i d a, batch.get? i = some d → d.answer = some a →
        ∀ sp ∈ a.answer_spans,
          (rows.getD i []).getD (pack sp.1 sp.2 dim) false = true) := by
  have hchk := packedCheck_ok batch hans hbd
  refine ⟨batch.map (fun d => packedRow (packedSize bound dim) dim
            ((d.answer.map AnswerData.answer_spans).getD [])),
          by simp [packedEncode, hchk], by simp, ?_, ?_⟩
  · intro r hr
    obtain ⟨d, _, rfl⟩ := List.mem_map.mp hr
    simp [packedRow, packedSize]
  · intro i d a hget hsome sp hsp
    have hrow := getD_map_of_get?
      (fun d => packedRow (packedSize bound dim) dim ((d.answer.map AnswerData.answer_spans).getD []))
      batch i d [] hget
    rw [hrow]
    simp only [hsome, Option.map_some', Option.getD_some]
    obtain ⟨a2, hsome2, hsp2⟩ := hans d (List.get?_mem hget)
    rw [hsome] at hsome2
    cases hsome2
    obtain ⟨h1, h2, h3⟩ := hsp2 sp hsp
    have hlt : pack sp.1 sp.2 dim < packedSize bound dim := by
      have := pack_le_last h1 h2 h3 hbd
      simp only [packedSize]
      omega
    rw [packedRow, getD_range_map _ _ _ false hlt]
    simp only [List.any_eq_true, decide_eq_true_eq]
    exact ⟨sp, hsp, rfl⟩

/-- Witness for claim C6 at a concrete input: bound 2, context dimension 3,
one gold span `(1,2)`. -/
theorem claim6_witness :
    2 ≤ 3 ∧
    (∃ rows, packedEncode 2 3 [⟨[], [], some (.triviaQa [(1, 2)])⟩] = .ok rows ∧
      rows.length = ([(⟨[], [], some (.triviaQa [(1, 2)])⟩ : Doc)]).length ∧
      (∀ r ∈ rows, r.length = pack (3 - 2) (3 - 1) 3 + 1) ∧
      (∀ i d a, ([(⟨[], [], some (.triviaQa [(1, 2)])⟩ : Doc)]).get? i = some d →
        d.answer = some a → ∀ sp ∈ a.answer_spans,
          (rows.getD i []).getD (pack sp.1 sp.2 3) false = true)) :=
  ⟨by omega,
   claim6_packed_width_and_marks 2 3 [⟨[], [], some (.triviaQa [(1, 2)])⟩] (by omega)
     (by
       intro d hd
       simp only [List.mem_singleton] at hd
       subst hd
       refine ⟨.triviaQa [(1, 2)], rfl, ?_⟩
       intro sp hsp
       simp only [AnswerData.answer_spans, List.mem_singleton] at hsp
       subst hsp
       decide)⟩

/-- Claim C10.  A batch containing an example whose answer is `None` makes
`PackedMultiSpanAnswerEncoder.encode` fail (it dereferences
`doc.answer.answer_spans` unconditionally) instead of returning an
all-false row, while `DenseMultiSpanAnswerEncoder.encode` skips such an
example and returns successfully with all-false rows for it.  The
well-formedness hypothesis (spec section 3) makes the dense encoder's
other writes in-bounds. -/
theorem claim10_packed_fails_dense_skips (bound dim bs : Nat) (batch : List Doc)
    (i : Nat) (d : Doc) (hd : batch.get? i = some d) (hnone : d.answer = none)
    (hwf : ∀ d2 ∈ batch, ∀ a, d2.answer = some a → ∀ sp ∈ a.answer_spans, sp.1 ≤ sp.2)
    (hbs : batch.length ≤ bs) :
    (∀ rows, packedEncode bound dim batch ≠ .ok rows) ∧
    (∃ S E, denseEncode bs dim batch = .ok (S, E) ∧
      S.getD i [] = List.replicate dim false ∧
      E.getD i [] = List.replicate dim false) := by
  constructor
  · intro rows hok
    unfold packedEncode at hok
    cases hc : packedCheck (packedSize bound dim) dim batch with
    | error e => rw [hc] at hok; cases hok
    | ok u => exact packedCheck_not_ok batch ⟨d, List.get?_mem hd, hnone⟩ u hc
  · have hchk : denseCheck bs dim 0 batch = .ok () := denseCheck_ok bs dim 0 batch hwf (by omega)
    have hi : i < batch.length := (List.get?_eq_some.mp hd).1
    have hibs : i < bs := by omega
    refine ⟨(List.range bs).map (fun k => denseRow dim true (batch.get? k)),
            (List.range bs).map (fun k => denseRow dim false (batch.get? k)),
            by simp [denseEncode, hchk], ?_, ?_⟩
    · rw [getD_range_map _ bs i [] hibs, hd]
      simp [denseRow, hnone]
    · rw [getD_range_map _ bs i [] hibs, hd]
      simp [denseRow, hnone]

/-- Witness for claim C10 at a concrete input. -/
theorem claim10_witness :
    ([(⟨[], [], none⟩ : Doc)]).get? 0 = some (⟨[], [], none⟩ : Doc) ∧
    ((∀ rows, packedEncode 1 1 [(⟨[], [], none⟩ : Doc)] ≠ .ok rows) ∧
     (∃ S E, denseEncode 1 1 [(⟨[], [], none⟩ : Doc)] = .ok (S, E) ∧
       S.getD 0 [] = List.replicate 1 false ∧
       E.getD 0 [] = List.replicate 1 false)) :=
  ⟨rfl,
   claim10_packed_fails_dense_skips 1 1 1 [(⟨[], [], none⟩ : Doc)] 0 ⟨[], [], none⟩ rfl rfl
     (by
       intro d2 hd2 a ha sp hsp
       simp only [List.mem_singleton] at hd2
       subst hd2
       cases ha)
     (by simp)⟩

/-! More helper lemmas about list access. -/

theorem getD_append_ge {α : Type} (a b : List α) (i : Nat) (d : α) (h : a.length ≤ i) :
    (a ++ b).getD i d = b.getD (i - a.length) d := by
  induction a generalizing i with
  | nil => simp
  | cons x xs ih =>
    cases i with
    | zero => simp at h
    | succ j =>
      have := ih j (by simpa using h)
      simpa [List.getD_cons_succ] using this

theorem getD_replicate_self {α : Type} (n i : Nat) (x : α) :
    (List.replicate n x).getD i x = x := by
  induction n generalizing i with
  | zero => simp [List.getD]
  | succ m ih =>
    cases i with
    | zero => rfl
    | succ j => simpa [List.replicate_succ] using ih j

theorem pad0_getD_lt (n : Nat) (l : List Int) (i : Nat) (h : i < l.length) :
    (pad0 n l).getD i 0 = l.getD i 0 :=
  getD_append_left l _ i 0 h

theorem pad0_getD_ge (n : Nat) (l : List Int) (i : Nat) (h : l.length ≤ i) :
    (pad0 n l).getD i 0 = 0 := by
  unfold pad0
  rw [getD_append_ge l _ i 0 h]
  exact getD_replicate_self _ _ 0

theorem padRows_getD_ge (n m : Nat) (rows : List (List Int)) (i : Nat)
    (h : rows.length ≤ i) :
    (padRows n m rows).getD i (zeroRow m) = zeroRow m := by
  unfold padRows
  rw [getD_append_ge rows _ i (zeroRow m) h]
  exact getD_replicate_self _ _ (zeroRow m)

theorem getD_take (l : List Int) (n i : Nat) (d : Int) (h : i < n) :
    (l.take n).getD i d = l.getD i d := by
  induction l generalizing n i with
  | nil => simp
  | cons x xs ih =>
    cases n with
    | zero => omega
    | succ m =>
      cases i with
      | zero => rfl
      | succ j => simpa [List.getD_cons_succ] using ih m j (by omega)

theorem getD_drop (l : List Int) (n i : Nat) (d : Int) :
    (l.drop n).getD i d = l.getD (n + i) d := by
  induction l generalizing n with
  | nil => simp
  | cons x xs ih =>
    cases n with
    | zero => simp
    | succ m => simpa [List.getD_cons_succ, Nat.succ_add] using ih m

theorem natMax_ge (l : List Nat) : ∀ x ∈ l, x ≤ natMax l := by
  have key : ∀ (l : List Nat) (a : Nat), a ≤ l.foldl Nat.max a ∧ ∀ x ∈ l, x ≤ l.foldl Nat.max a := by
    intro l
    induction l with
    | nil => intro a; exact ⟨Nat.le_refl a, by simp⟩
    | cons y ys ih =>
      intro a
      obtain ⟨h1, h2⟩ := ih (Nat.max a y)
      refine ⟨Nat.le_trans (Nat.le_max_left a y) h1, ?_⟩
      intro x hx
      rcases List.mem_cons.mp hx with rfl | hmem
      · exact Nat.le_trans (Nat.le_max_right a x) h1
      · exact h2 x hmem
  intro x hx
  exact (key l 0).2 x hx

theorem npMax_ok_of_ne_nil {l : List Nat} (h : l ≠ []) : npMax l = .ok (natMax l) := by
  unfold npMax
  rw [if_neg (by simpa using h)]

/-! Inversion of `encode` and shape lemmas (claims C1, C2, C7, C9). -/

theorem encode_ok_inv {σ : Type} {cfg : EncCfg σ} {batch : List Doc} {tr : Bool} {s0 : σ}
    {f : Feed} (hok : encode cfg batch tr s0 = .ok f) :
    capExceeded cfg batch = false ∧
    ∃ cl qd ansF,
      ctxStep cfg batch tr = .ok cl ∧
      qStep cfg batch = .ok qd ∧
      runAnsEnc cfg.ans (paddedSize cfg batch) cl.1 cl.2 batch = .ok ansF ∧
      f = buildFeed cfg batch tr s0 cl.1 cl.2 qd ansF := by
  unfold encode at hok
  by_cases hcap : capExceeded cfg batch = true
  · rw [if_pos hcap] at hok; cases hok
  · rw [Bool.not_eq_true] at hcap
    rw [hcap] at hok
    simp only [Bool.false_eq_true, if_false] at hok
    refine ⟨hcap, ?_⟩
    cases hc : ctxStep cfg batch tr with
    | error e => rw [hc] at hok; cases hok
    | ok cl =>
      rw [hc] at hok
      dsimp only at hok
      cases hq : qStep cfg batch with
      | error e => rw [hq] at hok; cases hok
      | ok qd =>
        rw [hq] at hok
        dsimp only at hok
        cases ha : runAnsEnc cfg.ans (paddedSize cfg batch) cl.1 cl.2 batch with
        | error e => rw [ha] at hok; cases hok
        | ok ansF =>
          rw [ha] at hok
          cases hok
          exact ⟨cl, qd, ansF, rfl, rfl, ha, rfl⟩

theorem capExceeded_false_le {σ : Type} {cfg : EncCfg σ} {batch : List Doc}
    (h : capExceeded cfg batch = false) : batch.length ≤ paddedSize cfg batch := by
  unfold capExceeded at h
  unfold paddedSize
  cases hb : cfg.batch_size with
  | none => exact Nat.le_refl _
  | some c =>
    rw [hb] at h
    simp only [decide_eq_false_iff_not, Nat.not_lt] at h
    exact h

theorem ctxStep_len {σ : Type} {cfg : EncCfg σ} {batch : List Doc} {tr : Bool}
    {cl : List Nat × Nat} (h : ctxStep cfg batch tr = .ok cl) :
    cl.1.length = batch.length := by
  unfold ctxStep at h
  rcases tr with _ | _ <;> rcases hm : cfg.max_context_word_dim with _ | M <;> rw [hm] at h
  · cases hx : npMax (batch.map flatLen) with
    | error e => rw [hx] at h; cases h
    | ok m => rw [hx] at h; cases h; simp
  · cases hx : npMax (batch.map flatLen) with
    | error e => rw [hx] at h; cases h
    | ok m => rw [hx] at h; cases h; simp
  · cases hx : npMax (batch.map flatLen) with
    | error e => rw [hx] at h; cases h
    | ok m => rw [hx] at h; cases h; simp
  · cases h; simp

theorem fillWordsBatch_length {σ : Type} (cfg : EncCfg σ) (emb : WordEmbedder σ) (tr : Bool) :
    ∀ (s : σ) (ds : List Doc), (fillWordsBatch cfg emb tr s ds).1.length = ds.length := by
  intro s ds
  induction ds generalizing s with
  | nil => rfl
  | cons d ds ih => simpa [fillWordsBatch] using ih (fillDoc cfg emb tr s d).2

theorem singleSpanEncode_ok_length {rng : Nat → Nat → Nat} {bs : Nat} {cl : List Nat}
    {batch : List Doc} {l : List (Nat × Nat)}
    (h : singleSpanEncode rng bs cl batch = .ok l) (hle : batch.length ≤ bs) :
    l.length = bs := by
  unfold singleSpanEncode at h
  cases hl : singleSpanList rng cl 0 batch with
  | error e => rw [hl] at h; cases h
  | ok l2 =>
    rw [hl] at h
    cases h
    have := (singleSpanList_ok_spec 0 batch l2 hl).1
    simp [this]
    omega

theorem denseEncode_ok_length {bs dim : Nat} {batch : List Doc}
    {p : List (List Bool) × List (List Bool)} (h : denseEncode bs dim batch = .ok p) :
    p.1.length = bs ∧ p.2.length = bs := by
  unfold denseEncode at h
  cases hc : denseCheck bs dim 0 batch with
  | error e => rw [hc] at h; cases h
  | ok u => rw [hc] at h; cases h; simp

theorem packedEncode_ok_length {bound dim : Nat} {batch : List Doc}
    {rows : List (List Bool)} (h : packedEncode bound dim batch = .ok rows) :
    rows.length = batch.length := by
  unfold packedEncode at h
  cases hc : packedCheck (packedSize bound dim) dim batch with
  | error e => rw [hc] at h; cases h
  | ok u => rw [hc] at h; cases h; simp

theorem runAnsEnc_ok_inv {ac : AnsEncCfg} {bs : Nat} {clen : List Nat} {dim : Nat}
    {batch : List Doc} {ansF : AnswerFeed} (h : runAnsEnc ac bs clen dim batch = .ok ansF) :
    (∀ l, ansF = .single l → ∃ rng, ac = .single rng ∧
      singleSpanEncode rng bs clen batch = .ok l) ∧
    (∀ S E, ansF = .dense S E → denseEncode bs dim batch = .ok (S, E)) ∧
    (∀ rows, ansF = .packed rows → ∃ b, ac = .packed b ∧
      packedEncode b dim batch = .ok rows) := by
  cases ac with
  | single rng =>
    simp only [runAnsEnc] at h
    cases hs : singleSpanEncode rng bs clen batch with
    | error e => rw [hs] at h; cases h
    | ok l2 =>
      rw [hs] at h
      cases h
      refine ⟨?_, ?_, ?_⟩
      · intro l hl; cases hl; exact ⟨rng, rfl, hs⟩
      · intro S E hl; cases hl
      · intro rows hl; cases hl
  | dense =>
    simp only [runAnsEnc] at h
    cases hs : denseEncode bs dim batch with
    | error e => rw [hs] at h; cases h
    | ok p =>
      rw [hs] at h
      cases h
      refine ⟨?_, ?_, ?_⟩
      · intro l hl; cases hl
      · intro S E hl
        cases hl
        simpa using hs
      · intro rows hl; cases hl
  | packed b =>
    simp only [runAnsEnc] at h
    cases hs : packedEncode b dim batch with
    | error e => rw [hs] at h; cases h
    | ok rows2 =>
      rw [hs] at h
      cases h
      refine ⟨?_, ?_, ?_⟩
      · intro l hl; cases hl
      · intro S E hl; cases hl
      · intro rows hl; cases hl; exact ⟨b, rfl, hs⟩

/-- Claim C1, amended.  On every successful `encode` call the word and
char buffers and the single-span and dense answer targets have leading
dimension equal to the configured fixed capacity when one is configured
(padding unused slots) and the number of examples otherwise; but the
per-example length arrays (`context_len`, `question_len`) and the packed
answer target always have leading dimension equal to the number of
examples in the batch, even under a larger configured capacity. -/
theorem claim1_amended {σ : Type} (cfg : EncCfg σ) (batch : List Doc) (tr : Bool) (s0 : σ)
    (f : Feed) (hok : encode cfg batch tr s0 = .ok f) :
    batch.length ≤ paddedSize cfg batch ∧
    f.context_len.length = batch.length ∧
    f.question_len.length = batch.length ∧
    (∀ rows, f.context_words = some rows → rows.length = paddedSize cfg batch) ∧
    (∀ rows, f.question_words = some rows → rows.length = paddedSize cfg batch) ∧
    (∀ rows, f.context_chars = some rows → rows.length = paddedSize cfg batch) ∧
    (∀ rows, f.question_chars = some rows → rows.length = paddedSize cfg batch) ∧
    (∀ l, f.answer = .single l → l.length = paddedSize cfg batch) ∧
    (∀ S E, f.answer = .dense S E → S.length = paddedSize cfg batch ∧
      E.length = paddedSize cfg batch) ∧
    (∀ rows, f.answer = .packed rows → rows.length = batch.length) := by
  obtain ⟨hcap, cl, qd, ansF, hc, hq, ha, hf⟩ := encode_ok_inv hok
  have hle := capExceeded_false_le hcap
  subst hf
  refine ⟨hle, ?_, ?_, ?_, ?_, ?_, ?_, ?_, ?_, ?_⟩
  · simpa [buildFeed] using ctxStep_len hc
  · simp [buildFeed]
  · intro rows hrows
    simp only [buildFeed] at hrows
    cases hw : cfg.word_emb with
    | none => rw [hw] at hrows; cases hrows
    | some emb =>
      rw [hw] at hrows
      simp only [Option.map_some'] at hrows
      cases hrows
      simp [fillWordsBatch_length]
      omega
  · intro rows hrows
    simp only [buildFeed] at hrows
    cases hw : cfg.word_emb with
    | none => rw [hw] at hrows; cases hrows
    | some emb =>
      rw [hw] at hrows
      simp only [Option.map_some'] at hrows
      cases hrows
      simp [fillWordsBatch_length]
      omega
  · intro rows hrows
    simp only [buildFeed] at hrows
    cases hw : cfg.char_emb with
    | none => rw [hw] at hrows; cases hrows
    | some ce =>
      rw [hw] at hrows
      simp only [Option.map_some'] at hrows
      cases hrows
      simp
      omega
  · intro rows hrows
    simp only [buildFeed] at hrows
    cases hw : cfg.char_emb with
    | none => rw [hw] at hrows; cases hrows
    | some ce =>
      rw [hw] at hrows
      simp only [Option.map_some'] at hrows
      cases hrows
      simp
      omega
  · intro l hl
    simp only [buildFeed] at hl
    obtain ⟨rng, _, hs⟩ := (runAnsEnc_ok_inv ha).1 l hl
    exact singleSpanEncode_ok_length hs hle
  · intro S E hl
    simp only [buildFeed] at hl
    have hs := (runAnsEnc_ok_inv ha).2.1 S E hl
    simpa using denseEncode_ok_length hs
  · intro rows hl
    simp only [buildFeed] at hl
    obtain ⟨b, _, hs⟩ := (runAnsEnc_ok_inv ha).2.2 rows hl
    exact packedEncode_ok_length hs

/-- Claim C1, counterexample to the claim as stated: with a configured
fixed batch capacity of 2 and a batch of one example, `encode` succeeds
but the returned `context_len` array has leading dimension 1, not the
configured capacity 2 (the same feed also shows `question_len` with
leading dimension 1, while the dense answer targets are padded to 2). -/
theorem claim1_counterexample :
    encode exCfg1 [exDoc1] false 0 =
      .ok ⟨[1], [1], none, none, none, none,
        .dense [[false], [false]] [[false], [false]]⟩ ∧
    (Feed.mk [1] [1] none none none none
      (.dense [[false], [false]] [[false], [false]])).context_len.length ≠ 2 ∧
    exCfg1.batch_size = some 2 :=
  ⟨rfl, by decide, rfl⟩

/-- Witness for the amended claim C1 at a concrete input. -/
theorem claim1_witness :
    encode exCfg1 [exDoc1] false 0 =
      .ok ⟨[1], [1], none, none, none, none,
        .dense [[false], [false]] [[false], [false]]⟩ ∧
    ([exDoc1].length ≤ paddedSize exCfg1 [exDoc1] ∧
     (Feed.mk [1] [1] none none none none
       (.dense [[false], [false]] [[false], [false]])).context_len.length = [exDoc1].length ∧
     (Feed.mk [1] [1] none none none none
       (.dense [[false], [false]] [[false], [false]])).question_len.length = [exDoc1].length ∧
     (∀ rows, (Feed.mk [1] [1] none none none none
       (.dense [[false], [false]] [[false], [false]])).context_words = some rows →
         rows.length = paddedSize exCfg1 [exDoc1]) ∧
     (∀ rows, (Feed.mk [1] [1] none none none none
       (.dense [[false], [false]] [[false], [false]])).question_words = some rows →
         rows.length = paddedSize exCfg1 [exDoc1]) ∧
     (∀ rows, (Feed.mk [1] [1] none none none none
       (.dense [[false], [false]] [[false], [false]])).context_chars = some rows →
         rows.length = paddedSize exCfg1 [exDoc1]) ∧
     (∀ rows, (Feed.mk [1] [1] none none none none
       (.dense [[false], [false]] [[false], [false]])).question_chars = some rows →
         rows.length = paddedSize exCfg1 [exDoc1]) ∧
     (∀ l, (Feed.mk [1] [1] none none none none
       (.dense [[false], [false]] [[false], [false]])).answer = .single l →
         l.length = paddedSize exCfg1 [exDoc1]) ∧
     (∀ S E, (Feed.mk [1] [1] none none none none
       (.dense [[false], [false]] [[false], [false]])).answer = .dense S E →
         S.length = paddedSize exCfg1 [exDoc1] ∧ E.length = paddedSize exCfg1 [exDoc1]) ∧
     (∀ rows, (Feed.mk [1] [1] none none none none
       (.dense [[false], [false]] [[false], [false]])).answer = .packed rows →
         rows.length = [exDoc1].length)) :=
  ⟨rfl,
   claim1_amended exCfg1 [exDoc1] false 0
     ⟨[1], [1], none, none, none, none, .dense [[false], [false]] [[false], [false]]⟩ rfl⟩

/-! Error behaviour of `encode` (claim C7). -/

theorem ctxStep_ok_of_ne_nil {σ : Type} (cfg : EncCfg σ) (batch : List Doc) (tr : Bool)
    (h : batch ≠ []) : ∃ cl, ctxStep cfg batch tr = .ok cl := by
  have hne : (batch.map flatLen) ≠ [] := by simpa using h
  unfold ctxStep
  rcases tr with _ | _ <;> rcases hm : cfg.max_context_word_dim with _ | M
  · rw [npMax_ok_of_ne_nil hne]; exact ⟨_, rfl⟩
  · rw [npMax_ok_of_ne_nil hne]; exact ⟨_, rfl⟩
  · rw [npMax_ok_of_ne_nil hne]; exact ⟨_, rfl⟩
  · exact ⟨_, rfl⟩

theorem qStep_config_error {σ : Type} {cfg : EncCfg σ} {batch : List Doc} {qd : Nat} {d : Doc}
    (hqd : cfg.max_ques_word_dim = some qd) (hmem : d ∈ batch)
    (hlt : qd < d.question.length) : qStep cfg batch = .error .configError := by
  unfold qStep
  rw [hqd]
  have hne : (batch.map (fun d => d.question.length)) ≠ [] := by
    simpa using List.ne_nil_of_mem hmem
  rw [npMax_ok_of_ne_nil hne]
  dsimp only
  have hle : d.question.length ≤ natMax (batch.map (fun d => d.question.length)) :=
    natMax_ge _ _ (List.mem_map.mpr ⟨d, hmem, rfl⟩)
  rw [if_pos (by omega)]

/-- Claim C7.  `encode` fails with `ValueError` (spec ConfigurationError)
whenever the batch has more examples than a configured fixed capacity, and
whenever a fixed question dimension is configured and some example's
question is longer; the error aborts the call, so no feed mapping — not
even a partial one — is returned (the result is the bare error). -/
theorem claim7_config_errors {σ : Type} (cfg : EncCfg σ) (batch : List Doc) (tr : Bool)
    (s0 : σ) :
    (∀ cap, cfg.batch_size = some cap → cap < batch.length →
      encode cfg batch tr s0 = .error .configError) ∧
    (∀ qd d, cfg.max_ques_word_dim = some qd → d ∈ batch → qd < d.question.length →
      encode cfg batch tr s0 = .error .configError) := by
  constructor
  · intro cap hcap hlt
    have hce : capExceeded cfg batch = true := by
      unfold capExceeded
      rw [hcap]
      simpa using hlt
    unfold encode
    rw [hce]
    simp
  · intro qd d hqd hmem hlt
    by_cases hce : capExceeded cfg batch = true
    · unfold encode
      rw [hce]
      simp
    · rw [Bool.not_eq_true] at hce
      unfold encode
      rw [hce]
      simp only [Bool.false_eq_true, if_false]
      obtain ⟨cl, hcl⟩ := ctxStep_ok_of_ne_nil cfg batch tr (List.ne_nil_of_mem hmem)
      rw [hcl]
      dsimp only
      rw [qStep_config_error hqd hmem hlt]

/-- Witness for claim C7 at concrete inputs: a batch of one example over a
capacity of 0, and a two-word question over a fixed question dimension of
1. -/
theorem claim7_witness :
    ((⟨some 0, none, some 1, 1, none, false, none, none, .dense⟩ : EncCfg Nat).batch_size = some 0 ∧
      0 < [exDoc1].length ∧
      encode (⟨some 0, none, some 1, 1, none, false, none, none, .dense⟩ : EncCfg Nat)
        [exDoc1] false 0 = .error .configError) ∧
    ((⟨none, none, some 1, 1, none, false, none, none, .dense⟩ : EncCfg Nat).max_ques_word_dim = some 1 ∧
      exDoc2 ∈ [exDoc2] ∧ 1 < exDoc2.question.length ∧
      encode (⟨none, none, some 1, 1, none, false, none, none, .dense⟩ : EncCfg Nat)
        [exDoc2] false 0 = .error .configError) :=
  ⟨⟨rfl, by decide,
    (claim7_config_errors (⟨some 0, none, some 1, 1, none, false, none, none, .dense⟩ : EncCfg Nat)
      [exDoc1] false 0).1 0 rfl (by decide)⟩,
   ⟨rfl, by decide, by decide,
    (claim7_config_errors (⟨none, none, some 1, 1, none, false, none, none, .dense⟩ : EncCfg Nat)
      [exDoc2] false 0).2 1 exDoc2 rfl (by decide) (by decide)⟩⟩

/-! Shape of the fill loop outputs (claims C9 and C2). -/

theorem runResolve_length {σ : Type} (emb : WordEmbedder σ) (tr : Bool) :
    ∀ (ws : List (Token × (Token → Int))) (s : σ) (tbl : Table),
      (runResolve emb tr s tbl ws).1.length = ws.length := by
  intro ws
  induction ws with
  | nil => intro s tbl; rfl
  | cons p rest ih =>
    intro s tbl
    cases p with
    | mk w f => simpa [runResolve] using ih _ _

theorem fillWordsBatch_get? {σ : Type} (cfg : EncCfg σ) (emb : WordEmbedder σ) (tr : Bool) :
    ∀ (ds : List Doc) (s : σ) (i : Nat) (d : Doc), ds.get? i = some d →
      ∃ s2, (fillWordsBatch cfg emb tr s ds).1.get? i = some (fillDoc cfg emb tr s2 d).1 := by
  intro ds
  induction ds with
  | nil => intro s i d h; cases h
  | cons d0 ds ih =>
    intro s i d h
    cases i with
    | zero =>
      cases h
      exact ⟨s, rfl⟩
    | succ j =>
      obtain ⟨s2, hs2⟩ := ih (fillDoc cfg emb tr s d0).2 j d (by simpa using h)
      exact ⟨s2, by simpa [fillWordsBatch] using hs2⟩

theorem docStream_length {σ : Type} (cfg : EncCfg σ) (emb : WordEmbedder σ) (d : Doc) :
    (docStream cfg emb d).length =
      d.question.length + (effCtx cfg.sent_size_th cfg.max_context_word_dim d).length := by
  simp [docStream]

theorem fillDoc_snd_length {σ : Type} (cfg : EncCfg σ) (emb : WordEmbedder σ) (tr : Bool)
    (s : σ) (d : Doc) :
    (fillDoc cfg emb tr s d).1.2.length =
      (effCtx cfg.sent_size_th cfg.max_context_word_dim d).length := by
  unfold fillDoc
  simp [runResolve_length, docStream_length]

theorem effCtx_length_le (sentTh : Option Nat) (M : Nat) (d : Doc) :
    (effCtx sentTh (some M) d).length ≤ M := by
  unfold effCtx optTake
  simpa using List.length_take_le M _

theorem ctxStep_false_eval {σ : Type} {cfg : EncCfg σ} {batch : List Doc}
    {cl : List Nat × Nat} (h : ctxStep cfg batch false = .ok cl) :
    cl.1 = batch.map flatLen := by
  unfold ctxStep at h
  cases hx : npMax (batch.map flatLen) with
  | error e =>
    rcases hm : cfg.max_context_word_dim with _ | M <;> rw [hm] at h <;> rw [hx] at h <;> cases h
  | ok m =>
    rcases hm : cfg.max_context_word_dim with _ | M <;> rw [hm] at h <;> rw [hx] at h <;>
      cases h <;> rfl

/-- Claim C9.  With a configured maximum context dimension and
`is_train = false`, an example longer than the maximum still has its full
untruncated flattened length written to the `context_len` array, while its
context word and char entries at positions at or beyond the configured
maximum are never written and stay zero, so the reported length exceeds
the number of filled positions. -/
theorem claim9_eval_length_untruncated {σ : Type} (cfg : EncCfg σ) (batch : List Doc)
    (s0 : σ) (f : Feed) (M i : Nat) (d : Doc)
    (hM : cfg.max_context_word_dim = some M)
    (hok : encode cfg batch false s0 = .ok f)
    (hd : batch.get? i = some d)
    (hexceeds : M < flatLen d) :
    f.context_len.getD i 0 = flatLen d ∧
    (∀ rows, f.context_words = some rows → ∀ p, M ≤ p → (rows.getD i []).getD p 0 = 0) ∧
    (∀ rows, f.context_chars = some rows → ∀ p, M ≤ p →
      (rows.getD i []).getD p (zeroRow cfg.max_char_dim) = zeroRow cfg.max_char_dim) := by
  obtain ⟨hcap, cl, qd, ansF, hc, hq, ha, hf⟩ := encode_ok_inv hok
  have hcl1 := ctxStep_false_eval hc
  have hi : i < batch.length := (List.get?_eq_some.mp hd).1
  subst hf
  refine ⟨?_, ?_, ?_⟩
  · simp only [buildFeed]
    rw [hcl1]
    exact getD_map_of_get? flatLen batch i d 0 hd
  · intro rows hrows p hp
    simp only [buildFeed] at hrows
    cases hw : cfg.word_emb with
    | none => rw [hw] at hrows; cases hrows
    | some emb =>
      rw [hw] at hrows
      simp only [Option.map_some'] at hrows
      cases hrows
      obtain ⟨s2, hs2⟩ := fillWordsBatch_get? cfg emb false batch s0 i d hd
      rw [getD_append_left _ _ i []
        (by rw [List.length_map, fillWordsBatch_length]; exact hi)]
      rw [getD_map_of_get? (fun r => pad0 cl.2 r.2) _ i _ [] hs2]
      apply pad0_getD_ge
      have hlen := fillDoc_snd_length cfg emb false s2 d
      rw [hlen, hM]
      exact Nat.le_trans (effCtx_length_le cfg.sent_size_th M d) hp
  · intro rows hrows p hp
    simp only [buildFeed] at hrows
    cases hw : cfg.char_emb with
    | none => rw [hw] at hrows; cases hrows
    | some ce =>
      rw [hw] at hrows
      simp only [Option.map_some'] at hrows
      cases hrows
      rw [getD_append_left _ _ i [] (by rw [List.length_map]; exact hi)]
      rw [getD_map_of_get?
        (fun d => padRows cl.2 cfg.max_char_dim
          ((effCtx cfg.sent_size_th cfg.max_context_word_dim d).map (charRow ce cfg.max_char_dim)))
        batch i d [] hd]
      apply padRows_getD_ge
      rw [List.length_map, hM]
      exact Nat.le_trans (effCtx_length_le cfg.sent_size_th M d) hp

/-- Witness for claim C9 at a concrete input. -/
theorem claim9_witness :
    encode exCfg9 [exDoc9] false 0 =
      .ok ⟨[2], [1], some [[5, 0]], some [[5]], none, none,
        .dense [[false, false]] [[false, false]]⟩ ∧
    1 < flatLen exDoc9 ∧
    ((Feed.mk [2] [1] (some [[5, 0]]) (some [[5]]) none none
        (.dense [[false, false]] [[false, false]])).context_len.getD 0 0 = flatLen exDoc9 ∧
     (∀ rows, (Feed.mk [2] [1] (some [[5, 0]]) (some [[5]]) none none
        (.dense [[false, false]] [[false, false]])).context_words = some rows →
        ∀ p, 1 ≤ p → (rows.getD 0 []).getD p 0 = 0) ∧
     (∀ rows, (Feed.mk [2] [1] (some [[5, 0]]) (some [[5]]) none none
        (.dense [[false, false]] [[false, false]])).context_chars = some rows →
        ∀ p, 1 ≤ p →
          (rows.getD 0 []).getD p (zeroRow exCfg9.max_char_dim) = zeroRow exCfg9.max_char_dim)) :=
  ⟨rfl, by decide,
   claim9_eval_length_untruncated exCfg9 [exDoc9] 0
     ⟨[2], [1], some [[5, 0]], some [[5]], none, none,
       .dense [[false, false]] [[false, false]]⟩ 1 0 exDoc9 rfl rfl rfl (by decide)⟩

/-! The placeholder table invariant (claim C2). -/

theorem lookupTable_cons_ne (tbl : Table) (k0 key : Token) (v0 : Int) (h : key ≠ k0) :
    lookupTable ((k0, v0) :: tbl) key = lookupTable tbl key := by
  show (if key = k0 then some v0 else lookupTable tbl key) = lookupTable tbl key
  rw [if_neg h]

theorem runResolve_table_stable {σ : Type} (emb : WordEmbedder σ) (tr : Bool) :
    ∀ (ws : List (Token × (Token → Int))) (s : σ) (tbl : Table) (key : Token) (v : Int),
      lookupTable tbl key = some v →
      lookupTable (runResolve emb tr s tbl ws).2.2 key = some v := by
  intro ws
  induction ws with
  | nil => intro s tbl key v h; exact h
  | cons p rest ih =>
    intro s tbl key v h
    cases p with
    | mk w f =>
      show lookupTable (runResolve emb tr _ _ (_ :: rest)).2.2 key = some v
      simp only [runResolve]
      unfold resolveWord
      by_cases hneg : f w < 0
      · rw [if_pos hneg]
        cases hl : lookupTable tbl (lower w) with
        | some v0 =>
          dsimp only
          exact ih _ _ key v h
        | none =>
          dsimp only
          apply ih
          have hne : key ≠ lower w := by
            intro heq
            rw [← heq, h] at hl
            cases hl
          rw [lookupTable_cons_ne tbl (lower w) key _ hne]
          exact h
      · rw [if_neg hneg]
        exact ih _ _ key v h

theorem runResolve_key {σ : Type} (emb : WordEmbedder σ) (tr : Bool) :
    ∀ (ws : List (Token × (Token → Int))) (s : σ) (tbl : Table) (k : Nat)
      (w : Token) (f : Token → Int),
      ws.get? k = some (w, f) → f w < 0 →
      (runResolve emb tr s tbl ws).1.get? k =
        lookupTable (runResolve emb tr s tbl ws).2.2 (lower w) := by
  intro ws
  induction ws with
  | nil => intro s tbl k w f h _; cases h
  | cons p rest ih =>
    intro s tbl k w f h hneg
    cases p with
    | mk w0 f0 =>
      cases k with
      | zero =>
        cases h
        simp only [runResolve]
        unfold resolveWord
        rw [if_pos hneg]
        cases hl : lookupTable tbl (lower w) with
        | some v =>
          dsimp only
          exact (runResolve_table_stable emb tr rest _ tbl (lower w) v hl).symm
        | none =>
          dsimp only
          refine (runResolve_table_stable emb tr rest _ _ (lower w) _ ?_).symm
          unfold lookupTable
          rw [if_pos rfl]
      | succ j =>
        simp only [runResolve, List.get?_cons_succ]
        exact ih _ _ j w f (by simpa using h) hneg

theorem runResolve_same_key {σ : Type} (emb : WordEmbedder σ) (tr : Bool)
    (ws : List (Token × (Token → Int))) (s : σ) (tbl : Table)
    (k1 k2 : Nat) (w1 w2 : Token) (f1 f2 : Token → Int)
    (h1 : ws.get? k1 = some (w1, f1)) (h2 : ws.get? k2 = some (w2, f2))
    (hu1 : f1 w1 < 0) (hu2 : f2 w2 < 0) (hlow : lower w1 = lower w2) :
    (runResolve emb tr s tbl ws).1.get? k1 = (runResolve emb tr s tbl ws).1.get? k2 := by
  rw [runResolve_key emb tr ws s tbl k1 w1 f1 h1 hu1,
      runResolve_key emb tr ws s tbl k2 w2 f2 h2 hu2, hlow]

theorem getD_eq_get?_getD (l : List Int) (i : Nat) (d : Int) :
    l.getD i d = (l.get? i).getD d := by
  induction l generalizing i with
  | nil => simp [List.getD]
  | cons x xs ih =>
    cases i with
    | zero => rfl
    | succ j => simpa using ih j

theorem encode_feedWordEntry {σ : Type} {cfg : EncCfg σ} {batch : List Doc} {tr : Bool}
    {s0 : σ} {f : Feed} {emb : WordEmbedder σ} {dix : Nat} {d : Doc}
    (hok : encode cfg batch tr s0 = .ok f) (hemb : cfg.word_emb = some emb)
    (hd : batch.get? dix = some d) :
    ∃ s2, ∀ k, k < (docStream cfg emb d).length →
      feedWordEntry f d dix k =
        (runResolve emb tr s2 [] (docStream cfg emb d)).1.getD k 0 := by
  obtain ⟨hcap, cl, qd, ansF, hc, hq, ha, hf⟩ := encode_ok_inv hok
  have hdix : dix < batch.length := (List.get?_eq_some.mp hd).1
  subst hf
  obtain ⟨s2, hs2⟩ := fillWordsBatch_get? cfg emb tr batch s0 dix d hd
  refine ⟨s2, ?_⟩
  intro k hk
  have hids : (runResolve emb tr s2 [] (docStream cfg emb d)).1.length =
      (docStream cfg emb d).length := runResolve_length emb tr _ s2 []
  have hqlen : d.question.length ≤ (runResolve emb tr s2 [] (docStream cfg emb d)).1.length := by
    rw [hids, docStream_length]
    omega
  unfold feedWordEntry
  by_cases hkq : k < d.question.length
  · rw [if_pos hkq]
    simp only [buildFeed, hemb, Option.map_some', Option.getD_some]
    rw [getD_append_left _ _ dix []
      (by rw [List.length_map, fillWordsBatch_length]; exact hdix)]
    rw [getD_map_of_get? (fun r => pad0 qd r.1) _ dix _ [] hs2]
    show (pad0 qd ((runResolve emb tr s2 [] (docStream cfg emb d)).1.take d.question.length)).getD k 0 = _
    rw [pad0_getD_lt _ _ k (by
      rw [List.length_take]
      omega)]
    exact getD_take _ _ k 0 hkq
  · rw [if_neg hkq]
    simp only [buildFeed, hemb, Option.map_some', Option.getD_some]
    rw [getD_append_left _ _ dix []
      (by rw [List.length_map, fillWordsBatch_length]; exact hdix)]
    rw [getD_map_of_get? (fun r => pad0 cl.2 r.2) _ dix _ [] hs2]
    show (pad0 cl.2 ((runResolve emb tr s2 [] (docStream cfg emb d)).1.drop d.question.length)).getD
      (k - d.question.length) 0 = _
    rw [pad0_getD_lt _ _ _ (by
      rw [List.length_drop]
      omega)]
    rw [getD_drop]
    have : d.question.length + (k - d.question.length) = k := by omega
    rw [this]

/-- Claim C2.  Within one `encode` call the placeholder table of each
example starts empty, so (first part) any two occurrences of unknown
tokens with the same lowercased form in one example — question or context
position alike, `feedWordEntry` addressing both — are written the
identical placeholder id; and (second part) the very same unknown token in
two different examples of one batch can receive two different ids (100 and
101 with the counter embedder `exEmb2`), since the table is reset between
examples while the external counter keeps running. -/
theorem claim2_placeholder_consistency :
    (∀ (σ : Type) (cfg : EncCfg σ) (emb : WordEmbedder σ) (batch : List Doc) (tr : Bool)
      (s0 : σ) (f : Feed) (dix : Nat) (d : Doc) (k1 k2 : Nat) (w1 w2 : Token)
      (f1 f2 : Token → Int),
      encode cfg batch tr s0 = .ok f → cfg.word_emb = some emb → batch.get? dix = some d →
      (docStream cfg emb d).get? k1 = some (w1, f1) →
      (docStream cfg emb d).get? k2 = some (w2, f2) →
      f1 w1 < 0 → f2 w2 < 0 → lower w1 = lower w2 →
      feedWordEntry f d dix k1 = feedWordEntry f d dix k2) ∧
    (∃ f2, encode exCfg2 [exDoc2, exDoc2] false 0 = .ok f2 ∧
      feedWordEntry f2 exDoc2 0 0 = 100 ∧ feedWordEntry f2 exDoc2 0 2 = 100 ∧
      feedWordEntry f2 exDoc2 1 0 = 101 ∧ (100 : Int) ≠ 101) := by
  constructor
  · intro σ cfg emb batch tr s0 f dix d k1 k2 w1 w2 f1 f2 hok hemb hd hk1 hk2 hu1 hu2 hlow
    obtain ⟨s2, hent⟩ := encode_feedWordEntry hok hemb hd
    have hl1 : k1 < (docStream cfg emb d).length := (List.get?_eq_some.mp hk1).1
    have hl2 : k2 < (docStream cfg emb d).length := (List.get?_eq_some.mp hk2).1
    rw [hent k1 hl1, hent k2 hl2]
    rw [getD_eq_get?_getD, getD_eq_get?_getD]
    rw [runResolve_same_key emb tr (docStream cfg emb d) s2 [] k1 k2 w1 w2 f1 f2 hk1 hk2 hu1 hu2 hlow]
  · exact ⟨⟨[1, 1], [2, 2], some [[100], [101]], some [[100, 5], [101, 5]], none, none,
      .dense [[false], [false]] [[false], [false]]⟩, rfl, rfl, rfl, rfl, by decide⟩

/-- Witness for the universally quantified part of claim C2 at a concrete
input: the unknown token at question position 0 and the same token at
context position (stream position 2) of the same example receive the same
id. -/
theorem claim2_witness :
    encode exCfg2 [exDoc2] false 0 =
      .ok ⟨[1], [2], some [[100]], some [[100, 5]], none, none,
        .dense [[false]] [[false]]⟩ ∧
    exEmb2.question_word_to_ix xxTok < 0 ∧
    exEmb2.context_word_to_ix xxTok < 0 ∧
    feedWordEntry
      ⟨[1], [2], some [[100]], some [[100, 5]], none, none, .dense [[false]] [[false]]⟩
      exDoc2 0 0 =
    feedWordEntry
      ⟨[1], [2], some [[100]], some [[100, 5]], none, none, .dense [[false]] [[false]]⟩
      exDoc2 0 2 :=
  ⟨rfl, by decide, by decide,
   claim2_placeholder_consistency.1 Nat exCfg2 exEmb2 [exDoc2] false 0
     ⟨[1], [2], some [[100]], some [[100, 5]], none, none, .dense [[false]] [[false]]⟩
     0 exDoc2 0 2 xxTok xxTok exEmb2.question_word_to_ix exEmb2.context_word_to_ix
     rfl rfl rfl rfl rfl (by decide) (by decide) rfl⟩

/-! Characterisation of the sentinel writes of `CheatingEncoder`
(claim C8). -/

theorem setAt_ok {l r : List Int} {i : Nat} {v : Int} (h : setAt l i v = .ok r) :
    i < l.length ∧ r = l.set i v := by
  unfold setAt at h
  by_cases hi : i < l.length
  · rw [if_pos hi] at h
    cases h
    exact ⟨hi, rfl⟩
  · rw [if_neg hi] at h
    cases h

theorem getD_set_lt (l : List Int) (i p : Nat) (v d : Int) (hi : i < l.length) :
    (l.set i v).getD p d = if p = i then v else l.getD p d := by
  induction l generalizing i p with
  | nil => simp at hi
  | cons x xs ih =>
    cases i with
    | zero =>
      cases p with
      | zero => rfl
      | succ j => simp [List.getD_cons_succ]
    | succ i2 =>
      cases p with
      | zero => simp
      | succ j =>
        have := ih i2 j (by simpa using hi)
        simp only [List.set_cons_succ, List.getD_cons_succ, this]
        by_cases hji : j = i2
        · rw [if_pos hji, if_pos (by omega)]
        · rw [if_neg hji, if_neg (by omega)]

theorem writeInterior_ok {v : Int} :
    ∀ (idxs : List Nat) (l r : List Int), writeInterior v l idxs = .ok r →
      r.length = l.length ∧
      ∀ p, p < l.length → r.getD p 0 = if p ∈ idxs then v else l.getD p 0 := by
  intro idxs
  induction idxs with
  | nil =>
    intro l r h
    cases h
    exact ⟨rfl, fun p _ => by simp⟩
  | cons i is ih =>
    intro l r h
    unfold writeInterior at h
    cases hs : setAt l i v with
    | error e => rw [hs] at h; cases h
    | ok l2 =>
      rw [hs] at h
      obtain ⟨hi, rfl⟩ := setAt_ok hs
      obtain ⟨hlen, hval⟩ := ih _ r h
      rw [List.length_set] at hlen
      refine ⟨hlen, ?_⟩
      intro p hp
      have h2 := hval p (by rw [List.length_set]; exact hp)
      rw [h2, getD_set_lt l i p v 0 hi]
      by_cases hmem : p ∈ is
      · rw [if_pos hmem, if_pos (List.mem_cons_of_mem i hmem)]
      · rw [if_neg hmem]
        by_cases hpi : p = i
        · rw [if_pos hpi, if_pos (by rw [hpi]; exact List.mem_cons_self i is)]
        · rw [if_neg hpi, if_neg (by
            intro hc
            rcases List.mem_cons.mp hc with h3 | h3
            · exact hpi h3
            · exact hmem h3)]

theorem writeSpan_ok {σ : Type} (emb : WordEmbedder σ) {l r : List Int} {sp : Nat × Nat}
    (h : writeSpan emb l sp = .ok r) :
    r.length = l.length ∧ sp.1 < l.length ∧ sp.2 < l.length ∧
    ∀ p, p < l.length → r.getD p 0 = spanVal emb p (l.getD p 0) sp := by
  unfold writeSpan at h
  cases h1 : setAt l sp.1 (emb.question_word_to_ix whatTok) with
  | error e => rw [h1] at h; cases h
  | ok l1 =>
    rw [h1] at h
    dsimp only at h
    obtain ⟨hi1, rfl⟩ := setAt_ok h1
    cases h2 : setAt (l.set sp.1 (emb.question_word_to_ix whatTok)) sp.2
        (emb.question_word_to_ix theTok) with
    | error e => rw [h2] at h; cases h
    | ok l2 =>
      rw [h2] at h
      dsimp only at h
      obtain ⟨hi2, rfl⟩ := setAt_ok h2
      rw [List.length_set] at hi2
      obtain ⟨hlen, hval⟩ := writeInterior_ok _ _ r h
      simp only [List.length_set] at hlen
      refine ⟨hlen, hi1, hi2, ?_⟩
      intro p hp
      have h3 := hval p (by simpa [List.length_set] using hp)
      rw [h3]
      rw [getD_set_lt _ sp.2 p _ 0 (by simpa [List.length_set] using hi2)]
      rw [getD_set_lt l sp.1 p _ 0 hi1]
      unfold spanVal
      by_cases hmem : p ∈ List.range' (sp.1 + 1) (sp.2 - (sp.1 + 1))
      · have hint : sp.1 < p ∧ p < sp.2 := by
          rw [List.mem_range'_1] at hmem
          omega
        rw [if_pos hmem, if_pos hint]
      · have hint : ¬ (sp.1 < p ∧ p < sp.2) := by
          intro hcon
          obtain ⟨h5, h6⟩ := hcon
          apply hmem
          rw [List.mem_range'_1]
          omega
        rw [if_neg hmem, if_neg hint]

theorem writeSpans_ok {σ : Type} (emb : WordEmbedder σ) :
    ∀ (sps : List (Nat × Nat)) (l r : List Int), writeSpans emb l sps = .ok r →
      r.length = l.length ∧
      ∀ p, p < l.length → r.getD p 0 = sps.foldl (spanVal emb p) (l.getD p 0) := by
  intro sps
  induction sps with
  | nil =>
    intro l r h
    cases h
    exact ⟨rfl, fun p _ => rfl⟩
  | cons sp sps ih =>
    intro l r h
    unfold writeSpans at h
    cases hs : writeSpan emb l sp with
    | error e => rw [hs] at h; cases h
    | ok l2 =>
      rw [hs] at h
      obtain ⟨hlen2, _, _, hval2⟩ := writeSpan_ok emb hs
      obtain ⟨hlen, hval⟩ := ih l2 r h
      refine ⟨by omega, ?_⟩
      intro p hp
      have h4 := hval p (by omega)
      rw [h4, hval2 p hp]
      rfl

theorem cheatRow_ok {σ : Type} (emb : WordEmbedder σ) (cwd : Nat) (oa : Option AnswerData)
    (r : List Int) (h : cheatRow emb cwd oa = .ok r) :
    r.length = cwd ∧
    ∀ p, p < cwd → r.getD p 0 = cheatExpected emb p oa := by
  cases oa with
  | none =>
    cases h
    refine ⟨by simp [zeroRow], ?_⟩
    intro p hp
    show (zeroRow cwd).getD p 0 = cheatExpected emb p none
    exact getD_replicate_self cwd p 0
  | some a =>
    unfold cheatRow at h
    obtain ⟨hlen, hval⟩ := writeSpans_ok emb a.answer_spans (zeroRow cwd) r h
    refine ⟨by simpa [zeroRow] using hlen, ?_⟩
    intro p hp
    have h2 := hval p (by simpa [zeroRow] using hp)
    rw [h2]
    have hz : (zeroRow cwd).getD p 0 = 0 := getD_replicate_self cwd p 0
    rw [hz]
    rfl

theorem cheatRowsList_ok {σ : Type} (emb : WordEmbedder σ) (cwd : Nat) :
    ∀ (ds : List Doc) (rows : List (List Int)), cheatRowsList emb cwd ds = .ok rows →
      rows.length = ds.length ∧
      ∀ i d, ds.get? i = some d →
        ∃ r, rows.get? i = some r ∧ cheatRow emb cwd d.answer = .ok r := by
  intro ds
  induction ds with
  | nil =>
    intro rows h
    cases h
    exact ⟨rfl, fun i d h2 => by cases h2⟩
  | cons d0 ds ih =>
    intro rows h
    unfold cheatRowsList at h
    cases h1 : cheatRow emb cwd d0.answer with
    | error e => rw [h1] at h; cases h
    | ok r0 =>
      rw [h1] at h
      cases h2 : cheatRowsList emb cwd ds with
      | error e => rw [h2] at h; cases h
      | ok rest =>
        rw [h2] at h
        cases h
        obtain ⟨hlen, hval⟩ := ih rest h2
        refine ⟨by simp [hlen], ?_⟩
        intro i d hget
        cases i with
        | zero =>
          cases hget
          exact ⟨r0, rfl, h1⟩
        | succ j => exact hval j d (by simpa using hget)

theorem cheatingEncode_ok_inv {σ : Type} {cfg : EncCfg σ} {batch : List Doc} {tr : Bool}
    {f : Feed} (hok : cheatingEncode cfg batch tr = .ok f) :
    capExceeded cfg batch = false ∧
    ∃ cl qd0 emb rows p,
      ctxStep cfg batch tr = .ok cl ∧
      qStepCheat cfg batch = .ok qd0 ∧
      cfg.word_emb = some emb ∧
      cheatRowsList emb (if cfg.len_opt then min cl.2 (natMax cl.1) else cl.2) batch = .ok rows ∧
      denseEncode (paddedSize cfg batch)
        (if cfg.len_opt then min cl.2 (natMax cl.1) else cl.2) batch = .ok p ∧
      f = Feed.mk cl.1 (batch.map (fun d => d.question.length))
        (some (rows ++ List.replicate (paddedSize cfg batch - batch.length)
          (zeroRow (if cfg.len_opt then min cl.2 (natMax cl.1) else cl.2))))
        (some (List.replicate (paddedSize cfg batch)
          (zeroRow (if cfg.len_opt
            then min qd0 (natMax (batch.map (fun d => d.question.length)))
            else qd0))))
        (cfg.char_emb.map (fun _ =>
          List.replicate (paddedSize cfg batch)
            (List.replicate (if cfg.len_opt then min cl.2 (natMax cl.1) else cl.2)
              (zeroRow cfg.max_char_dim))))
        (cfg.char_emb.map (fun _ =>
          List.replicate (paddedSize cfg batch)
            (List.replicate (if cfg.len_opt
              then min qd0 (natMax (batch.map (fun d => d.question.length)))
              else qd0) (zeroRow cfg.max_char_dim))))
        (.dense p.1 p.2) := by
  unfold cheatingEncode at hok
  by_cases hcap : capExceeded cfg batch = true
  · rw [if_pos hcap] at hok; cases hok
  · rw [Bool.not_eq_true] at hcap
    rw [hcap] at hok
    simp only [Bool.false_eq_true, if_false] at hok
    refine ⟨hcap, ?_⟩
    cases hc : ctxStep cfg batch tr with
    | error e => rw [hc] at hok; cases hok
    | ok cl =>
      rw [hc] at hok
      dsimp only at hok
      cases hq : qStepCheat cfg batch with
      | error e => rw [hq] at hok; cases hok
      | ok qd0 =>
        rw [hq] at hok
        dsimp only at hok
        cases hw : cfg.word_emb with
        | none => rw [hw] at hok; cases hok
        | some emb =>
          rw [hw] at hok
          dsimp only at hok
          cases hr : cheatRowsList emb (if cfg.len_opt then min cl.2 (natMax cl.1) else cl.2)
              batch with
          | error e => rw [hr] at hok; cases hok
          | ok rows =>
            rw [hr] at hok
            dsimp only at hok
            cases hdn : denseEncode (paddedSize cfg batch)
                (if cfg.len_opt then min cl.2 (natMax cl.1) else cl.2) batch with
            | error e => rw [hdn] at hok; cases hok
            | ok p =>
              rw [hdn] at hok
              cases hok
              exact ⟨cl, qd0, emb, rows, p, rfl, rfl, rfl, hr, hdn, rfl⟩

/-- Claim C8, counterexample to the claim as stated: at a concrete input
the cheating encoder's context row is `[10, 11, 0, 0]` — the sentinel ids
on the gold span `(0, 1)` over a zeroed row — whereas performing the
normal paragraph encoding (word id 5 everywhere) and then overwriting only
the gold-span positions would give `[10, 11, 5, 5]`; the vocabulary-
resolved ids outside the spans are not preserved, so `CheatingEncoder`
does not first perform the normal encoding. -/
theorem claim8_counterexample :
    cheatingEncode exCfg8 [exDoc8] true =
      .ok ⟨[4], [1], some [[10, 11, 0, 0]], some [[0, 0, 0, 0]], none, none,
        .dense [[true, false, false, false]] [[false, true, false, false]]⟩ ∧
    encode exCfg8 [exDoc8] true 0 =
      .ok ⟨[4], [1], some [[5, 5, 5, 5]], some [[5, 0, 0, 0]], none, none,
        .dense [[true, false, false, false]] [[false, true, false, false]]⟩ ∧
    overwriteSpansOnly exEmb8 [[5, 5, 5, 5]] [exDoc8] = .ok [[10, 11, 5, 5]] ∧
    some [[(10 : Int), 11, 0, 0]] ≠ some [[(10 : Int), 11, 5, 5]] :=
  ⟨rfl, rfl, rfl, by decide⟩

/-- Claim C8, amended.  `CheatingEncoder.encode` reuses the batching,
padding and truncation logic (capacity check, context/question length
steps, zero-padded buffers, the dense answer encoder), but performs no
vocabulary-based filling at all: the question word rows stay entirely
zero, and each example's context row holds, at every position, exactly the
positionwise replay of its gold-span sentinel writes over a zero base —
sentinels at span starts, ends and interiors, zero elsewhere (`None`
answers give an all-zero row). -/
theorem claim8_amended {σ : Type} (cfg : EncCfg σ) (batch : List Doc) (tr : Bool)
    (f : Feed) (emb : WordEmbedder σ)
    (hok : cheatingEncode cfg batch tr = .ok f) (hemb : cfg.word_emb = some emb) :
    (∃ qdv, f.question_words = some (List.replicate (paddedSize cfg batch) (zeroRow qdv))) ∧
    (∃ rowsC cwdv, f.context_words = some rowsC ∧
      ∀ i d, batch.get? i = some d →
        ∃ r, rowsC.get? i = some r ∧ r.length = cwdv ∧
          ∀ p, p < cwdv → r.getD p 0 = cheatExpected emb p d.answer) := by
  obtain ⟨hcap, cl, qd0, emb2, rows, p, hc, hq, hw, hr, hdn, hf⟩ := cheatingEncode_ok_inv hok
  subst hf
  have hemb2 : emb2 = emb := by
    rw [hemb] at hw
    injection hw with h2
    exact h2.symm
  rw [← hemb2]
  constructor
  · exact ⟨_, rfl⟩
  · refine ⟨_, (if cfg.len_opt then min cl.2 (natMax cl.1) else cl.2), rfl, ?_⟩
    intro i d hget
    have hi : i < batch.length := (List.get?_eq_some.mp hget).1
    obtain ⟨hlen, hval⟩ := cheatRowsList_ok emb2 _ batch rows hr
    obtain ⟨r, hrget, hrow⟩ := hval i d hget
    obtain ⟨hrlen, hrval⟩ := cheatRow_ok emb2 _ d.answer r hrow
    refine ⟨r, ?_, hrlen, hrval⟩
    rw [List.get?_append (by omega)]
    exact hrget

/-- Witness for the amended claim C8 at a concrete input. -/
theorem claim8_witness :
    cheatingEncode exCfg8 [exDoc8] true =
      .ok ⟨[4], [1], some [[10, 11, 0, 0]], some [[0, 0, 0, 0]], none, none,
        .dense [[true, false, false, false]] [[false, true, false, false]]⟩ ∧
    ((∃ qdv, (Feed.mk [4] [1] (some [[10, 11, 0, 0]]) (some [[0, 0, 0, 0]]) none none
        (.dense [[true, false, false, false]] [[false, true, false, false]])).question_words =
        some (List.replicate (paddedSize exCfg8 [exDoc8]) (zeroRow qdv))) ∧
     (∃ rowsC cwdv, (Feed.mk [4] [1] (some [[10, 11, 0, 0]]) (some [[0, 0, 0, 0]]) none none
        (.dense [[true, false, false, false]] [[false, true, false, false]])).context_words =
        some rowsC ∧
       ∀ i d, ([exDoc8]).get? i = some d →
         ∃ r, rowsC.get? i = some r ∧ r.length = cwdv ∧
           ∀ p, p < cwdv → r.getD p 0 = cheatExpected exEmb8 p d.answer)) :=
  ⟨rfl,
   claim8_amended exCfg8 [exDoc8] true
     ⟨[4], [1], some [[10, 11, 0, 0]], some [[0, 0, 0, 0]], none, none,
       .dense [[true, false, false, false]] [[false, true, false, false]]⟩ exEmb8 rfl rfl⟩

end DocQA
